import Mathlib

/-!
Verification of the argparse command-line parsing library.

The data model and the declaration builders (`NewParser`, `NewCommand`, `Flag`,
`String`, `File`, `List`, `Selector`), the `Usage` formatter dispatch, and the
top-level `Parser.Parse` wrapper are embedded from `argparse.go`.  The `arg`
struct, the recursive scope parser, the `subCommandError` type and the
`addToLastLine` line helper are declared outside that file; they are modelled
from the specification (Matcher §4.2, Parse Engine §4.3, error kinds §7), as
marked on each definition.
-/

namespace Argparse

/-- Mirrors `Options` from `argparse.go`: per-argument options.  `Validate` is
the optional custom validation callback; a `none` result means the callback
accepted the value, `some msg` is the error it returned (Go returns an `error`,
`nil` on success). -/
structure Options where
  Required : Bool := false
  Validate : Option (List String → Option String) := none
  Help : String := ""

/-- The value stored in an accessor cell, one constructor per result type the
builders allocate: `*bool` for `Flag`, `*string` for `String` and `Selector`,
`*[]string` for `List`, `*os.File` for `File`.  A zero-valued `os.File` is
`fileV none`; a file opened during parsing for path `p` is `fileV (some p)`. -/
inductive Value where
  | boolV (b : Bool)
  | strV (s : String)
  | listV (xs : List String)
  | fileV (opened : Option String)
deriving DecidableEq

/-- Mirrors the `arg` struct (declared outside `argparse.go`; its fields are
fixed by the builder calls in `argparse.go`).  `result` is the accessor cell,
modelled as an index into the cell store.  `size` counts the argument token
itself plus the value tokens it consumes, so `1` is a flag and `2` consumes one
following token.  `unique` is `false` exactly for `List` arguments.
`selector` is the declared value domain of a `Selector` argument. -/
structure Arg where
  result : Nat
  sname : String
  lname : String
  size : Nat
  opts : Option Options := none
  unique : Bool := true
  fileFlag : Int := 0
  filePerm : Nat := 0
  selector : Option (List String) := none

/-- Whether the descriptor was declared with `Options.Required`. -/
def Arg.isRequired (a : Arg) : Bool :=
  match a.opts with
  | some o => o.Required
  | none => false

/-- Run the declared validation callback, `none` meaning acceptance. -/
def Arg.runValidator (a : Arg) (vals : List String) : Option String :=
  match a.opts with
  | some o =>
    match o.Validate with
    | some f => f vals
    | none => none
  | none => none

/-- `true` when the descriptor has no custom validation callback. -/
def Arg.noValidator (a : Arg) : Bool :=
  match a.opts with
  | some o => o.Validate.isNone
  | none => true

/-- Mirrors the `Command` struct from `argparse.go`: one grammar-tree node.
The Go `parsed` flag and the accessor cells are the mutable part and live in
`PState`; `nodeId` stands for the node's pointer identity, and the Go `parent`
pointer is modelled by passing the ancestor chain explicitly where needed. -/
inductive CmdNode where
  | mk (nodeId : Nat) (name description : String) (args : List Arg)
      (commands : List CmdNode)

def CmdNode.nodeId : CmdNode → Nat
  | .mk i _ _ _ _ => i

def CmdNode.name : CmdNode → String
  | .mk _ n _ _ _ => n

def CmdNode.description : CmdNode → String
  | .mk _ _ d _ _ => d

def CmdNode.args : CmdNode → List Arg
  | .mk _ _ _ as _ => as

def CmdNode.commands : CmdNode → List CmdNode
  | .mk _ _ _ _ cs => cs

/-- Classified parse errors (spec §7).  `MissingRequiredSubCommand` is the
`subCommandError` type (declared outside `argparse.go`): it carries a reference
to the scope at which it occurred, together with that scope's ancestor chain
(standing for the Go parent pointers), so the usage formatter can redirect. -/
inductive PError where
  | MissingRequiredArgument (scope : String) (lname : String)
  | MissingRequiredSubCommand (chain : List CmdNode) (cmd : CmdNode)
  | InvalidSelectorValue (scope : String) (lname : String) (value : String)
  | ValidationFailed (msg : String)
  | ResourceOpenFailed (msg : String)
  | TooManyArguments

/-- The mutable state threaded through a parse: the accessor-cell store, the
set of accessor cells already written by a match (how the engine knows a
descriptor was matched), and the `parsed` flags of the command nodes. -/
structure PState where
  cells : List Value
  argDone : List Nat
  reached : List Nat

def PState.writeCell (st : PState) (i : Nat) (v : Value) : PState :=
  { st with cells := st.cells.set i v }

def PState.markArg (st : PState) (i : Nat) : PState :=
  { st with argDone := i :: st.argDone }

/-- Mirrors `Command.Happened` from `argparse.go`: whether the node's `parsed`
flag was set. -/
def Happened (c : CmdNode) (st : PState) : Bool :=
  st.reached.contains c.nodeId

/-- The "open resource at path with flags and permission bits" collaborator
capability (spec §6), supplied by the environment: `none` means the open
succeeded, `some msg` is its failure. -/
abbrev Opener := String → Int → Nat → Option String

/-- Outcome of matching one token against the visible descriptors: the token
was matched, consuming `consumed` following tokens as values (`0` for flags,
`1` for a value-consuming descriptor); or it was left untouched for the outer
scope; or matching aborted the parse with a classified error. -/
inductive MatchStep where
  | matched (st : PState) (consumed : Nat)
  | nomatch
  | failed (st : PState) (e : PError)

/-- Modelled from the spec (§4.3): after the accessor cell is written, run the
custom validator if present and abort on its error, propagating it. -/
def finishMatch (a : Arg) (vals : List String) (st : PState)
    (consumed : Nat) : MatchStep :=
  match a.runValidator vals with
  | some msg => .failed st (.ValidationFailed msg)
  | none => .matched st consumed

/-- Modelled from the spec (§4.3): apply one matched occurrence of descriptor
`a`, with `rest` the tokens following the matched one.  The result kind is
dispatched on the accessor cell (Go dispatches on the type of `arg.result`):
flags are set to `true` and consume nothing; the other kinds consume exactly
one following token.  A selector verifies domain membership before accepting
the match; a file argument invokes the open capability and wraps its failure.
A value-consuming descriptor with no following token is left unmatched (the
spec fixes no behaviour for it). -/
def applyArgMatch (opener : Opener) (scopeName : String) (a : Arg)
    (rest : List String) (st : PState) : MatchStep :=
  match st.cells[a.result]? with
  | some (.boolV _) =>
    finishMatch a [] ((st.writeCell a.result (.boolV true)).markArg a.result) 0
  | some (.strV _) =>
    match rest with
    | [] => .nomatch
    | v :: _ =>
      match a.selector with
      | some dom =>
        if dom.contains v then
          finishMatch a [v]
            ((st.writeCell a.result (.strV v)).markArg a.result) 1
        else .failed st (.InvalidSelectorValue scopeName a.lname v)
      | none =>
        finishMatch a [v]
          ((st.writeCell a.result (.strV v)).markArg a.result) 1
  | some (.listV xs) =>
    match rest with
    | [] => .nomatch
    | v :: _ =>
      finishMatch a [v]
        ((st.writeCell a.result (.listV (xs ++ [v]))).markArg a.result) 1
  | some (.fileV _) =>
    match rest with
    | [] => .nomatch
    | v :: _ =>
      match opener v a.fileFlag a.filePerm with
      | some msg => .failed st (.ResourceOpenFailed msg)
      | none =>
        finishMatch a [v]
          ((st.writeCell a.result (.fileV (some v))).markArg a.result) 1
  | none => .nomatch

/-- First visible descriptor with the given long name (visibility lists are
ordered innermost-first, so `find?` realises the spec's resolution order). -/
def findArgLong (vis : List Arg) (name : String) : Option Arg :=
  vis.find? (fun a => a.lname == name)

/-- First visible descriptor with the given short name. -/
def findArgShort (vis : List Arg) (s : String) : Option Arg :=
  vis.find? (fun a => a.sname == s)

/-- Modelled from the spec (§4.2 rule 3): resolve every letter of a combined
short token to a zero-arity (flag) descriptor; `none` when any letter fails to
resolve to one, which leaves the whole token unmatched. -/
def combinedFlags (vis : List Arg) : List Char → Option (List Arg)
  | [] => some []
  | ch :: chs =>
    match findArgShort vis (String.singleton ch) with
    | some a =>
      if a.size == 1 then (combinedFlags vis chs).map (a :: ·) else none
    | none => none

/-- Set every flag of a resolved combined short token (all letters are
zero-arity, so nothing is consumed); each flag's validator runs as for a
single match and its error aborts. -/
def applyFlags : List Arg → PState → MatchStep
  | [], st => .matched st 0
  | a :: as', st =>
    match finishMatch a [] ((st.writeCell a.result (.boolV true)).markArg a.result) 0 with
    | .matched st1 _ => applyFlags as' st1
    | .nomatch => .nomatch
    | .failed st1 e => .failed st1 e

/-- `String.startsWith`, computed on the character lists (the byte-position
loop of the library version does not reduce in proofs by evaluation). -/
def strStartsWith (s p : String) : Bool :=
  p.toList.isPrefixOf s.toList

/-- Modelled from the spec (§4.2 Matcher, rules 2-4): try the leading token as
a long-form token `--name`, a short-form token `-n`, or a combined short-flag
token `-ab`; a token matching none of these is left untouched in the buffer
for outer-scope detection. -/
def tryMatchArg (opener : Opener) (scopeName : String) (vis : List Arg)
    (t : String) (rest : List String) (st : PState) : MatchStep :=
  if strStartsWith t "--" then
    match findArgLong vis (t.drop 2) with
    | some a => applyArgMatch opener scopeName a rest st
    | none => .nomatch
  else if strStartsWith t "-" ∧ t.length = 2 then
    match findArgShort vis (t.drop 1) with
    | some a => applyArgMatch opener scopeName a rest st
    | none => .nomatch
  else if strStartsWith t "-" ∧ 2 < t.length then
    match combinedFlags vis (t.drop 1).toList with
    | some flags => applyFlags flags st
    | none => .nomatch
  else .nomatch

/-- Result of one scope's single left-to-right scan (spec §4.3): the state
after the argument matches, the tokens left unmatched in the buffer (in
order), the token that named a child command together with the tokens
following it (the scan transitions to descending there), and the first
error. -/
structure ScanOut where
  st : PState
  leftover : List String
  descend : Option (String × List String)
  err : Option PError

/-- Modelled from the spec (§4.3): the scanning state of one scope.  For each
position the matcher is asked, child-command names first (§4.2 rule 1); an
argument match consumes its tokens and the scan continues; a child-command
name ends the scan (the engine descends); tokens matching nothing are left in
the buffer; the first match failure aborts the scan with its error. -/
def scanArgs (opener : Opener) (scopeName : String) (vis : List Arg)
    (childNames : List String) : List String → PState → ScanOut
  | [], st => ⟨st, [], none, none⟩
  | t :: rest, st =>
    if childNames.contains t then ⟨st, [], some (t, rest), none⟩
    else
      match tryMatchArg opener scopeName vis t rest st with
      | .matched st1 0 => scanArgs opener scopeName vis childNames rest st1
      | .matched st1 (_ + 1) =>
        match rest with
        | [] => ⟨st1, [], none, none⟩
        | _ :: rest2 => scanArgs opener scopeName vis childNames rest2 st1
      | .failed st1 e => ⟨st1, rest, none, some e⟩
      | .nomatch =>
        let out := scanArgs opener scopeName vis childNames rest st
        ⟨out.st, t :: out.leftover, out.descend, out.err⟩

/-- Modelled from the spec (§4.3): the first required descriptor of the scope
with no recorded match yields the missing-required-argument error naming the
scope and the descriptor's long name. -/
def firstMissingRequired (scopeName : String) (args : List Arg)
    (done : List Nat) : Option PError :=
  match args.find? (fun a => a.isRequired && !done.contains a.result) with
  | some a => some (.MissingRequiredArgument scopeName a.lname)
  | none => none

/-- Modelled from the spec (§4.3, checking-invariants state): after the scan,
a required descriptor with no match fails first; then, if the scope declares
child commands and none was matched, the missing-required-sub-command error
carrying the reference to this scope is produced. -/
def postChecks (anc : List CmdNode) (c : CmdNode) (childMatched : Bool)
    (st : PState) (lo : List String) : PState × List String × Option PError :=
  match firstMissingRequired c.name c.args st.argDone with
  | some e => (st, lo, some e)
  | none =>
    if !c.commands.isEmpty && !childMatched then
      (st, lo, some (.MissingRequiredSubCommand anc c))
    else (st, lo, none)

mutual

/-- Modelled from the spec (§4.3 Parse Engine): recursive-descent parse of one
command scope.  The scope is marked reached on entry (the root is on the
matched path; a child is entered only through a child-command match, which the
spec marks reached).  Visibility is innermost-first: the scope's own
descriptors precede the inherited ancestor descriptors.  A child-command
match descends, via `descendFirst`, into the first child bearing the matched
name, with the tokens after that name; an error from the recursion propagates
unchanged; accessor cells written before a failure keep their values
(fail-fast, non-transactional). -/
def parseCmd (opener : Opener) (anc : List CmdNode) (inherited : List Arg)
    (c : CmdNode) (tokens : List String) (st : PState) :
    PState × List String × Option PError :=
  match c with
  | .mk i nm ds as cs =>
    let st0 : PState := { st with reached := i :: st.reached }
    let vis := as ++ inherited
    match scanArgs opener nm vis (cs.map CmdNode.name) tokens st0 with
    | ⟨st1, lo, some (t, rest), none⟩ =>
      match descendFirst opener ((CmdNode.mk i nm ds as cs) :: anc) vis cs
          t rest st1 with
      | (st2, lo2, some e) => (st2, lo ++ lo2, some e)
      | (st2, lo2, none) =>
        postChecks anc (.mk i nm ds as cs) true st2 (lo ++ lo2)
    | ⟨st1, lo, _, some e⟩ => (st1, lo, some e)
    | ⟨st1, lo, none, none⟩ => postChecks anc (.mk i nm ds as cs) false st1 lo

/-- Descend into the first child command whose name equals the matched token
(the scan guarantees one exists; an empty list leaves the token and the
remaining buffer unconsumed). -/
def descendFirst (opener : Opener) (anc : List CmdNode) (inherited : List Arg)
    (cs : List CmdNode) (t : String) (tokens : List String) (st : PState) :
    PState × List String × Option PError :=
  match cs with
  | [] => (st, t :: tokens, none)
  | ch :: rest =>
    if ch.name == t then parseCmd opener anc inherited ch tokens st
    else descendFirst opener anc inherited rest t tokens st

end
/-- The initial mutable state for a parse: the accessor cells as the builders
left them, nothing matched, no `parsed` flag set. -/
def initState (cells0 : List Value) : PState :=
  { cells := cells0, argDone := [], reached := [] }

/-- Mirrors `Parser.Parse` from `argparse.go`: copy the caller's tokens into a
fresh buffer, run the recursive parse of the root scope on the copy, and, only
when it returned success, report a too-many-arguments error if any non-empty
token remains unconsumed.  The engine removes consumed tokens from its buffer
(`argparse.go` blanks them and then filters the blanks), so the leftover list
here is exactly the non-blank remainder before the filter. -/
def Parse (opener : Opener) (root : CmdNode) (cells0 : List Value)
    (args : List String) : PState × Option PError :=
  let subargs := args
  match parseCmd opener [] [] root subargs (initState cells0) with
  | (st, _, some e) => (st, some e)
  | (st, lo, none) =>
    let unparsed := lo.filter (fun v => v ≠ "")
    if 0 < unparsed.length then (st, some .TooManyArguments) else (st, none)

/-- Mirrors the build-time allocation context: the accessor cells handed out
so far (freshly allocated Go pointers become successive indices) and a counter
standing for the pointer identity of created `Command` nodes. -/
structure BuildState where
  cells : List Value := []
  nodeCount : Nat := 0

def BuildState.allocCell (bs : BuildState) (v : Value) : BuildState × Nat :=
  ({ bs with cells := bs.cells ++ [v] }, bs.cells.length)

def BuildState.allocNode (bs : BuildState) : BuildState × Nat :=
  ({ bs with nodeCount := bs.nodeCount + 1 }, bs.nodeCount)

/-- Mirrors `Command.addArg` (declared outside `argparse.go`): append the
descriptor to the node's list. -/
def CmdNode.addArg : CmdNode → Arg → CmdNode
  | .mk i n d as cs, a => .mk i n d (as ++ [a]) cs

/-- Modelled from the spec: `help` is called by `NewParser` and `NewCommand`
in the source but declared elsewhere, and the spec describes no implicit
argument it would register, so it is modelled as registering nothing. -/
def CmdNode.help (c : CmdNode) : CmdNode := c

/-- Mirrors `NewParser` from `argparse.go`: a fresh root node with empty
argument and command lists. -/
def NewParser (name description : String) : CmdNode × BuildState :=
  let bs : BuildState := {}
  let (bs1, i) := bs.allocNode
  ((CmdNode.mk i name description [] []).help, bs1)

/-- Append a created child to the node's command list (the tail of
`Command.NewCommand` in `argparse.go`). -/
def CmdNode.addCommand : CmdNode → CmdNode → CmdNode
  | .mk i n d as cs, c => .mk i n d as (cs ++ [c])

/-- Mirrors `Command.NewCommand` from `argparse.go`: create a child node with
`parsed` unset and append it to this node's command list; the child is
returned for further declarations.  (In Go the child's `parent` back-pointer
is set to this node; here ancestry is the position in the returned tree.) -/
def CmdNode.NewCommand (o : CmdNode) (name description : String)
    (bs : BuildState) : CmdNode × CmdNode × BuildState :=
  let (bs1, i) := bs.allocNode
  let c := (CmdNode.mk i name description [] []).help
  (o.addCommand c, c, bs1)

/-- Mirrors `Command.Flag` from `argparse.go`: allocate a `false` boolean
accessor cell and register a `size` 1 unique descriptor; the returned index is
the `*bool` handed to the caller. -/
def CmdNode.Flag (o : CmdNode) (short long : String) (opts : Option Options)
    (bs : BuildState) : CmdNode × BuildState × Nat :=
  let (bs1, id) := bs.allocCell (.boolV false)
  let a : Arg := { result := id, sname := short, lname := long, size := 1,
                   opts := opts, unique := true }
  (o.addArg a, bs1, id)

/-- Mirrors `Command.String` from `argparse.go`: allocate an empty string
accessor cell and register a `size` 2 unique descriptor. -/
def CmdNode.StringArg (o : CmdNode) (short long : String)
    (opts : Option Options) (bs : BuildState) : CmdNode × BuildState × Nat :=
  let (bs1, id) := bs.allocCell (.strV "")
  let a : Arg := { result := id, sname := short, lname := long, size := 2,
                   opts := opts, unique := true }
  (o.addArg a, bs1, id)

/-- Mirrors `Command.File` from `argparse.go`: allocate a zero-valued
`os.File` accessor cell and register a `size` 2 unique descriptor carrying the
open flags and permission bits.  The returned pointer is modelled as
`Option Nat`, `none` standing for a nil `*os.File`; the function always
returns the address of the cell it just allocated. -/
def CmdNode.File (o : CmdNode) (short long : String) (flag : Int) (perm : Nat)
    (opts : Option Options) (bs : BuildState) :
    CmdNode × BuildState × Option Nat :=
  let (bs1, id) := bs.allocCell (.fileV none)
  let a : Arg := { result := id, sname := short, lname := long, size := 2,
                   opts := opts, unique := true, fileFlag := flag,
                   filePerm := perm }
  (o.addArg a, bs1, some id)

/-- Mirrors `Command.List` from `argparse.go` (named `ListArg` here because
`List` would shadow the list type): allocate an empty string-list accessor
cell and register a `size` 2 descriptor with `unique` false. -/
def CmdNode.ListArg (o : CmdNode) (short long : String) (opts : Option Options)
    (bs : BuildState) : CmdNode × BuildState × Nat :=
  let (bs1, id) := bs.allocCell (.listV [])
  let a : Arg := { result := id, sname := short, lname := long, size := 2,
                   opts := opts, unique := false }
  (o.addArg a, bs1, id)

/-- Mirrors `Command.Selector` from `argparse.go`: allocate an empty string
accessor cell and register a `size` 2 unique descriptor carrying the list of
allowed values. -/
def CmdNode.Selector (o : CmdNode) (short long : String)
    (options : List String) (opts : Option Options) (bs : BuildState) :
    CmdNode × BuildState × Nat :=
  let (bs1, id) := bs.allocCell (.strV "")
  let a : Arg := { result := id, sname := short, lname := long, size := 2,
                   opts := opts, unique := true, selector := some options }
  (o.addArg a, bs1, id)

/-- Modelled from the spec: `addToLastLine` is the line-wrapping helper used by
`Command.Usage` but declared outside `argparse.go`; wrapping is presentational
and out of scope (spec §1), so it is modelled as appending the word after a
space. -/
def addToLastLine (base add : String) (maxWidth padding : Nat)
    (spacing : Bool) : String :=
  base ++ " " ++ add

/-- Modelled from the spec: the `arg.usage()` rendering of one descriptor
(short/long names), declared outside `argparse.go`. -/
def Arg.usage (a : Arg) : String :=
  if a.sname = "" then "--" ++ a.lname else "-" ++ a.sname ++ "|--" ++ a.lname

def spaces (n : Nat) : String :=
  String.mk (List.replicate n ' ')

/-- The body of `Command.Usage` from `argparse.go` for one scope: the command
chain from the root (the Go loop walks `parent` pointers, here the `anc`
chain), this scope's and all preceding scopes' arguments, the scope
description, the child-command list and the argument list. -/
def usageText (anc : List CmdNode) (o : CmdNode) : String :=
  let nodes := o :: anc
  let chain1 := (nodes.map CmdNode.name).reverse
  let arguments := nodes.flatMap CmdNode.args
  let chain := if o.commands.isEmpty then chain1 else chain1 ++ ["<Command>"]
  let commands := o.commands
  let leftPadding := ("usage: " ++ chain1.headD "").length
  let result0 := chain.foldl
    (fun r v => addToLastLine r v 100 leftPadding true) "usage:"
  let result1 := arguments.foldl
    (fun r a => addToLastLine r a.usage 100 leftPadding true) result0
  let result2 := addToLastLine (result1 ++ "\n\n" ++ spaces leftPadding)
    o.description 100 leftPadding true ++ "\n\n"
  let cmdPadding := commands.foldl
    (fun p com => max p ("   " ++ com.name ++ "   ").length) 0
  let cmdContent := commands.foldl (fun acc com =>
      let cmd0 := "   " ++ com.name
      let cmd1 := cmd0 ++ spaces (cmdPadding - cmd0.length)
      acc ++ addToLastLine cmd1 com.description 100 cmdPadding true ++ "\n")
    "Commands:\n\n"
  let result3 :=
    if commands.isEmpty then result2 else result2 ++ cmdContent ++ "\n"
  let argPadding := arguments.foldl (fun p a => max p (a.lname.length + 13)) 0
  let argContent := arguments.foldl (fun acc a =>
      let s0 := if a.sname ≠ "" then "   -" ++ a.sname ++ "   " else "        "
      let s1 := s0 ++ "--" ++ a.lname
      let s2 := s1 ++ spaces (argPadding - s1.length)
      let s3 := match a.opts with
        | some op =>
          if op.Help ≠ "" then addToLastLine s2 op.Help 100 argPadding true
          else s2
        | none => s2
      acc ++ s3 ++ "\n") "Arguments:\n\n"
  if arguments.isEmpty then result3 else result3 ++ argContent ++ "\n"

/-- Mirrors `Command.Usage` from `argparse.go`: when the error is the
missing-sub-command variant, the formatter redirects to `err.cmd.Usage(nil)`,
the usage text of the scope the error references; every other error, and a nil
error, renders this scope's own text.  (The `fmt.Println` of the error is a
side effect outside the returned string and is not modelled.) -/
def Usage (anc : List CmdNode) (o : CmdNode) (err : Option PError) : String :=
  match err with
  | some (.MissingRequiredSubCommand chain cmd) => usageText chain cmd
  | _ => usageText anc o

/-- A store of string slices: `Parser.Parse` receives the caller's token slice
by reference, so the copy it takes is observable only at this level.  A
reference is an index; reading an unallocated reference gives the empty
slice. -/
structure Heap where
  slices : List (List String)

def Heap.read (h : Heap) (r : Nat) : List String :=
  (h.slices[r]?).getD []

def Heap.write (h : Heap) (r : Nat) (v : List String) : Heap :=
  ⟨h.slices.set r v⟩

def Heap.alloc (h : Heap) (v : List String) : Heap × Nat :=
  (⟨h.slices ++ [v]⟩, h.slices.length)

/-- Mirrors `Parser.Parse` from `argparse.go` at the slice level: `subargs` is
a fresh slice that receives a copy of the caller's tokens, `o.parse(&subargs)`
consumes and blanks tokens only through that fresh reference, and the caller's
slice is never written. -/
def ParseOnHeap (opener : Opener) (root : CmdNode) (cells0 : List Value)
    (h : Heap) (r : Nat) : (PState × Option PError) × Heap :=
  let args := h.read r
  let (h1, rsub) := h.alloc args
  let (st, lo, err) := parseCmd opener [] [] root (h1.read rsub)
    (initState cells0)
  let h2 := h1.write rsub lo
  (match err with
   | some e => (st, some e)
   | none =>
     if 0 < (lo.filter (fun v => v ≠ "")).length then (st, some .TooManyArguments)
     else (st, none), h2)

theorem finishMatch_failed_shape {a : Arg} {vals : List String} {st : PState}
    {k : Nat} {st1 : PState} {e : PError}
    (h : finishMatch a vals st k = .failed st1 e) : e ≠ .TooManyArguments := by
  unfold finishMatch at h
  split at h
  · cases h; simp
  · cases h

theorem applyArgMatch_failed_shape {opener : Opener} {n : String} {a : Arg}
    {rest : List String} {st st1 : PState} {e : PError}
    (h : applyArgMatch opener n a rest st = .failed st1 e) :
    e ≠ .TooManyArguments := by
  unfold applyArgMatch at h
  repeat' split at h
  all_goals first
    | exact finishMatch_failed_shape h
    | (cases h; simp)
    | simp_all

theorem applyFlags_failed_shape :
    ∀ {flags : List Arg} {st st1 : PState} {e : PError},
    applyFlags flags st = .failed st1 e → e ≠ .TooManyArguments := by
  intro flags
  induction flags with
  | nil => intro st st1 e h; simp [applyFlags] at h
  | cons a as' ih =>
    intro st st1 e h
    unfold applyFlags at h
    split at h
    · exact ih h
    · simp_all
    · rename_i st2 e2 heq
      obtain ⟨rfl, rfl⟩ : st2 = st1 ∧ e2 = e := by simpa using h
      exact finishMatch_failed_shape heq

theorem tryMatchArg_failed_shape {opener : Opener} {n : String}
    {vis : List Arg} {t : String} {rest : List String} {st st1 : PState}
    {e : PError} (h : tryMatchArg opener n vis t rest st = .failed st1 e) :
    e ≠ .TooManyArguments := by
  unfold tryMatchArg at h
  repeat' split at h
  all_goals first
    | exact applyArgMatch_failed_shape h
    | exact applyFlags_failed_shape h
    | (cases h; simp)
    | simp_all

theorem scanArgs_err_shape (opener : Opener) (n : String) (vis : List Arg)
    (childNames : List String) (tokens : List String) (st : PState) :
    (scanArgs opener n vis childNames tokens st).err ≠ some .TooManyArguments := by
  induction tokens, st using scanArgs.induct opener n vis childNames <;>
    simp_all [scanArgs]
  case _ h => exact tryMatchArg_failed_shape h

theorem firstMissingRequired_shape {n : String} {args : List Arg}
    {done : List Nat} {e : PError}
    (h : firstMissingRequired n args done = some e) : e ≠ .TooManyArguments := by
  unfold firstMissingRequired at h
  split at h
  · obtain rfl : _ = e := by simpa using h
    simp
  · simp at h

theorem postChecks_err_shape {anc : List CmdNode} {c : CmdNode} {b : Bool}
    {st : PState} {lo : List String} {e : PError}
    (h : (postChecks anc c b st lo).2.2 = some e) : e ≠ .TooManyArguments := by
  unfold postChecks at h
  split at h
  case _ e1 heq =>
    obtain rfl : e1 = e := by simpa using h
    exact firstMissingRequired_shape heq
  case _ heq =>
    split at h
    · obtain rfl : _ = e := by simpa using h
      simp
    · simp at h

theorem descendFirst_err_shape :
    ∀ (cs : List CmdNode),
    (∀ ch ∈ cs, ∀ (opener : Opener) anc inh tokens st e,
      (parseCmd opener anc inh ch tokens st).2.2 = some e →
      e ≠ .TooManyArguments) →
    ∀ (opener : Opener) anc inh t tokens st e,
    (descendFirst opener anc inh cs t tokens st).2.2 = some e →
    e ≠ .TooManyArguments := by
  intro cs
  induction cs with
  | nil => intro _ opener anc inh t tokens st e h; simp [descendFirst] at h
  | cons ch cs' ih =>
    intro hall opener anc inh t tokens st e h
    unfold descendFirst at h
    split at h
    · exact hall ch (by simp) opener anc inh tokens st e h
    · exact ih (fun d hd => hall d (by simp [hd])) opener anc inh t tokens st e h

theorem parseCmd_err_shape :
    ∀ (s : Nat) (c : CmdNode), sizeOf c ≤ s →
    ∀ (opener : Opener) anc inh tokens st e,
    (parseCmd opener anc inh c tokens st).2.2 = some e →
    e ≠ .TooManyArguments := by
  intro s
  induction s with
  | zero =>
    intro c hc
    cases c with
    | mk i nm ds as cs => simp [CmdNode.mk.sizeOf_spec] at hc
  | succ s ih =>
    intro c hc opener anc inh tokens st e h
    cases c with
    | mk i nm ds as cs =>
      have hsub : ∀ ch ∈ cs, sizeOf ch ≤ s := by
        intro ch hch
        have h1 : sizeOf ch < sizeOf cs := List.sizeOf_lt_of_mem hch
        have h2 : sizeOf cs < sizeOf (CmdNode.mk i nm ds as cs) := by
          simp [CmdNode.mk.sizeOf_spec]
        omega
      simp only [parseCmd] at h
      split at h
      case _ st1 lo t rest hs =>
        split at h
        case _ st2 lo2 e2 hd =>
          obtain rfl : e2 = e := by simpa using h
          have hd2 : (descendFirst opener ((CmdNode.mk i nm ds as cs) :: anc)
              (as ++ inh) cs t rest st1).2.2 = some e2 := by rw [hd]
          exact descendFirst_err_shape cs
            (fun ch hch => ih ch (hsub ch hch)) _ _ _ _ _ _ _ hd2
        case _ st2 lo2 hd =>
          exact postChecks_err_shape h
      case _ st1 lo d e2 hs =>
        obtain rfl : e2 = e := by simpa using h
        have := scanArgs_err_shape opener nm (as ++ inh) (cs.map CmdNode.name)
          tokens { st with reached := i :: st.reached }
        rw [hs] at this
        simpa using this
      case _ st1 lo hs =>
        exact postChecks_err_shape h

/-- C3: `Parser.Parse` returns a too-many-arguments error if and only if the
recursive parse of the root scope returned success and at least one non-empty
token remains unconsumed in the buffer; an error from the recursive parse is
returned unchanged (leftover tokens are not reported), and tokens that are
empty strings after the scan never trigger the error (only the non-empty
remainder is counted). -/
theorem c3_too_many_arguments_iff (opener : Opener) (root : CmdNode)
    (cells0 : List Value) (args : List String) :
    ((Parse opener root cells0 args).2 = some .TooManyArguments ↔
      ((parseCmd opener [] [] root args (initState cells0)).2.2 = none ∧
        (parseCmd opener [] [] root args (initState cells0)).2.1.filter
          (fun v => v ≠ "") ≠ [])) ∧
    (∀ e, (parseCmd opener [] [] root args (initState cells0)).2.2 = some e →
      (Parse opener root cells0 args).2 = some e) := by
  rcases hp : parseCmd opener [] [] root args (initState cells0) with ⟨st, lo, err⟩
  cases err with
  | some e =>
    simp only [Parse]
    rw [hp]
    dsimp only
    have hshape : e ≠ .TooManyArguments :=
      parseCmd_err_shape (sizeOf root) root (le_refl _) opener [] []
        args (initState cells0) e (by rw [hp])
    refine ⟨⟨fun h => ?_, fun h => ?_⟩, fun e2 he2 => ?_⟩
    · obtain rfl : e = PError.TooManyArguments := by simpa using h
      exact absurd rfl hshape
    · obtain ⟨h1, -⟩ := h
      simp at h1
    · obtain rfl : e = e2 := by simpa using he2
      simp
  | none =>
    simp only [Parse]
    rw [hp]
    dsimp only
    refine ⟨⟨fun h => ?_, fun h => ?_⟩, fun e2 he2 => ?_⟩
    · refine ⟨by simp [hp], fun hnil => ?_⟩
      rw [hnil] at h
      simp at h
    · obtain ⟨-, h2⟩ := h
      have hpos : 0 < (lo.filter (fun v => v ≠ "")).length :=
        List.length_pos.mpr h2
      simp only [if_pos hpos]
    · simp at he2

theorem c3_witness :
    (Parse (fun _ _ _ => none) (CmdNode.mk 0 "prog" "d" [] []) []
      ["extra"]).2 = some .TooManyArguments :=
  (c3_too_many_arguments_iff (fun _ _ _ => none)
    (CmdNode.mk 0 "prog" "d" [] []) [] ["extra"]).1.mpr
    ⟨Option.isNone_iff_eq_none.mp (by decide), by decide⟩

/-- C4: `Usage` called on a scope with the missing-sub-command error renders
the usage text of the scope the error references (it equals `Usage` of that
scope with a nil error) instead of the scope it was called on; for every other
error kind, and for a nil error, it renders the called scope's own usage
text. -/
theorem c4_usage_redirects (anc : List CmdNode) (o : CmdNode) :
    (∀ chain cmd,
      Usage anc o (some (.MissingRequiredSubCommand chain cmd)) =
        usageText chain cmd ∧
      Usage anc o (some (.MissingRequiredSubCommand chain cmd)) =
        Usage chain cmd none) ∧
    (∀ e, (∀ chain cmd, e ≠ .MissingRequiredSubCommand chain cmd) →
      Usage anc o (some e) = usageText anc o) ∧
    Usage anc o none = usageText anc o := by
  refine ⟨fun chain cmd => ⟨rfl, rfl⟩, fun e he => ?_, rfl⟩
  cases e
  case MissingRequiredSubCommand chain cmd => exact absurd rfl (he chain cmd)
  all_goals rfl

theorem c4_witness :
    Usage [] (CmdNode.mk 0 "p" "d" [] []) (some .TooManyArguments) =
      usageText [] (CmdNode.mk 0 "p" "d" [] []) :=
  (c4_usage_redirects [] (CmdNode.mk 0 "p" "d" [] [])).2.1 .TooManyArguments
    (by intro chain cmd h; cases h)

/-- C10: `Command.File` always returns a non-nil pointer, for every
declaration: the pointer addresses the zero-valued `os.File` cell allocated at
declaration time (even though the Go doc comment says the pointer might be nil
on error). -/
theorem c10_file_pointer_never_nil (o : CmdNode) (short long : String)
    (flag : Int) (perm : Nat) (opts : Option Options) (bs : BuildState) :
    (o.File short long flag perm opts bs).2.2 ≠ none ∧
    (o.File short long flag perm opts bs).2.2 = some bs.cells.length ∧
    (o.File short long flag perm opts bs).2.1.cells[bs.cells.length]? =
      some (.fileV none) := by
  refine ⟨?_, ?_, ?_⟩ <;> simp [CmdNode.File, BuildState.allocCell]

/-- C9: `Parser.Parse` leaves the caller's original token slice unmodified:
the tokens are copied into a freshly allocated buffer, every
consumption/blanking write of the engine goes through that fresh reference,
and the outcome is the same as running `Parse` on the slice's contents. -/
theorem c9_caller_slice_unmodified (opener : Opener) (root : CmdNode)
    (cells0 : List Value) (h : Heap) (r : Nat) (hr : r < h.slices.length) :
    ((ParseOnHeap opener root cells0 h r).2).read r = h.read r ∧
    (ParseOnHeap opener root cells0 h r).1 =
      Parse opener root cells0 (h.read r) := by
  have hsub : (Heap.mk (h.slices ++ [h.read r])).read h.slices.length =
      h.read r := by
    simp [Heap.read]
  constructor
  · simp only [ParseOnHeap, Heap.alloc, Heap.write, Heap.read]
    rw [List.getElem?_set_ne (by omega)]
    rw [List.getElem?_append_left hr]
  · simp only [ParseOnHeap, Heap.alloc, Parse]
    rw [hsub]
    rcases hp : parseCmd opener [] [] root (h.read r) (initState cells0) with
      ⟨st, lo, err⟩
    cases err <;> rfl

theorem c9_witness :
    ((ParseOnHeap (fun _ _ _ => none) (CmdNode.mk 0 "prog" "d" [] []) []
        (Heap.mk [["extra"]]) 0).2).read 0 =
      (Heap.mk [["extra"]]).read 0 ∧
    (ParseOnHeap (fun _ _ _ => none) (CmdNode.mk 0 "prog" "d" [] []) []
        (Heap.mk [["extra"]]) 0).1 =
      Parse (fun _ _ _ => none) (CmdNode.mk 0 "prog" "d" [] [])
        [] ((Heap.mk [["extra"]]).read 0) :=
  c9_caller_slice_unmodified (fun _ _ _ => none)
    (CmdNode.mk 0 "prog" "d" [] []) [] (Heap.mk [["extra"]]) 0 (by decide)

/-- The claim's selector grammar, built through the source builders: a parser
scope `prog` with one selector argument `--level` over the domain `dom`; the
third component is the returned accessor cell. -/
def selGrammar (dom : List String) : CmdNode × BuildState × Nat :=
  let (p, bs) := NewParser "prog" "desc"
  p.Selector "" "level" dom none bs

/-- C7: a selector argument accepts a matched occurrence and writes the
consumed value to its accessor cell exactly when the value is a member of the
declared domain; a non-member fails the parse with an invalid-selector-value
error naming the scope and the offending value, leaving the accessor cell at
its zero value. -/
theorem c7_selector_value_domain (opener : Opener) (dom : List String)
    (v : String) :
    (dom.contains v = true →
      (Parse opener (selGrammar dom).1 (selGrammar dom).2.1.cells
        ["--level", v]).2 = none ∧
      (Parse opener (selGrammar dom).1 (selGrammar dom).2.1.cells
        ["--level", v]).1.cells[(selGrammar dom).2.2]? = some (.strV v)) ∧
    (dom.contains v = false →
      (Parse opener (selGrammar dom).1 (selGrammar dom).2.1.cells
        ["--level", v]).2 = some (.InvalidSelectorValue "prog" "level" v) ∧
      (Parse opener (selGrammar dom).1 (selGrammar dom).2.1.cells
        ["--level", v]).1.cells[(selGrammar dom).2.2]? = some (.strV "")) := by
  constructor
  · intro hv
    have hv2 : v ∈ dom := by simpa using hv
    constructor <;>
      simp [selGrammar, NewParser, CmdNode.Selector, BuildState.allocNode,
        BuildState.allocCell, CmdNode.help, CmdNode.addArg, Parse, parseCmd,
        scanArgs, tryMatchArg, strStartsWith, findArgLong, findArgShort,
        applyArgMatch, finishMatch, Arg.runValidator, PState.writeCell,
        PState.markArg, initState, descendFirst, postChecks,
        firstMissingRequired, Arg.isRequired, CmdNode.name, CmdNode.args,
        CmdNode.commands, CmdNode.nodeId,
        (show "--level".drop 2 = "level" by decide), hv2]
  · intro hv
    have hv2 : v ∉ dom := by simpa using hv
    constructor <;>
      simp [selGrammar, NewParser, CmdNode.Selector, BuildState.allocNode,
        BuildState.allocCell, CmdNode.help, CmdNode.addArg, Parse, parseCmd,
        scanArgs, tryMatchArg, strStartsWith, findArgLong, findArgShort,
        applyArgMatch, finishMatch, Arg.runValidator, PState.writeCell,
        PState.markArg, initState, descendFirst, postChecks,
        firstMissingRequired, Arg.isRequired, CmdNode.name, CmdNode.args,
        CmdNode.commands, CmdNode.nodeId,
        (show "--level".drop 2 = "level" by decide), hv2]

theorem c7_witness :
    (Parse (fun _ _ _ => none) (selGrammar ["low", "high"]).1
      (selGrammar ["low", "high"]).2.1.cells ["--level", "high"]).2 = none ∧
    (Parse (fun _ _ _ => none) (selGrammar ["low", "high"]).1
      (selGrammar ["low", "high"]).2.1.cells
      ["--level", "high"]).1.cells[(selGrammar ["low", "high"]).2.2]? =
      some (.strV "high") ∧
    (Parse (fun _ _ _ => none) (selGrammar ["low", "high"]).1
      (selGrammar ["low", "high"]).2.1.cells ["--level", "mid"]).2 =
      some (.InvalidSelectorValue "prog" "level" "mid") :=
  ⟨((c7_selector_value_domain (fun _ _ _ => none) ["low", "high"] "high").1
      (by decide)).1,
   ((c7_selector_value_domain (fun _ _ _ => none) ["low", "high"] "high").1
      (by decide)).2,
   ((c7_selector_value_domain (fun _ _ _ => none) ["low", "high"] "mid").2
      (by decide)).1⟩

theorem postChecks_state (anc : List CmdNode) (c : CmdNode) (b : Bool)
    (st : PState) (lo : List String) :
    (postChecks anc c b st lo).1 = st ∧ (postChecks anc c b st lo).2.1 = lo := by
  unfold postChecks
  repeat' split
  all_goals simp

theorem Parse_fst (opener : Opener) (root : CmdNode) (cells0 : List Value)
    (args : List String) :
    (Parse opener root cells0 args).1 =
      (parseCmd opener [] [] root args (initState cells0)).1 := by
  rcases hp : parseCmd opener [] [] root args (initState cells0) with ⟨st, lo, err⟩
  simp only [Parse]
  rw [hp]
  cases err
  · dsimp only
    split <;> rfl
  · rfl

theorem combinedFlags_pair {vis : List Arg} {ra fa : Arg}
    (hr : findArgShort vis "r" = some ra) (hra : ra.size = 1)
    (hf : findArgShort vis "f" = some fa) (hfa : fa.size = 1) :
    combinedFlags vis ['r', 'f'] = some [ra, fa] := by
  unfold combinedFlags combinedFlags combinedFlags
  rw [show String.singleton 'r' = "r" by decide,
      show String.singleton 'f' = "f" by decide, hr, hf]
  simp [hra, hfa]

theorem tryMatchArg_rf {opener : Opener} {nm : String} {vis : List Arg}
    {st : PState} {ra fa : Arg}
    (hr : findArgShort vis "r" = some ra) (hra : ra.size = 1)
    (hf : findArgShort vis "f" = some fa) (hfa : fa.size = 1) :
    tryMatchArg opener nm vis "-rf" [] st = applyFlags [ra, fa] st := by
  have hcomb := combinedFlags_pair hr hra hf hfa
  unfold tryMatchArg
  rw [if_neg (by decide), if_neg (by decide), if_pos (by decide)]
  rw [show ("-rf".drop 1).toList = ['r', 'f'] from by decide]
  rw [hcomb]

theorem applyFlags_two {ra fa : Arg} (st : PState)
    (h1 : ra.runValidator [] = none) (h2 : fa.runValidator [] = none) :
    applyFlags [ra, fa] st =
      .matched ((((st.writeCell ra.result (.boolV true)).markArg
        ra.result).writeCell fa.result (.boolV true)).markArg fa.result) 0 := by
  unfold applyFlags applyFlags applyFlags finishMatch
  rw [h1, h2]

theorem scanArgs_one_matched {opener : Opener} {n : String} {vis : List Arg}
    {childNames : List String} {t : String} {st st1 : PState}
    (hcn : childNames.contains t = false)
    (hm : tryMatchArg opener n vis t [] st = .matched st1 0) :
    scanArgs opener n vis childNames [t] st = ⟨st1, [], none, none⟩ := by
  unfold scanArgs
  rw [if_neg (by simpa using hcn), hm]
  simp [scanArgs]

theorem parseCmd_state_of_scan {opener : Opener} {anc : List CmdNode}
    {inh : List Arg} {i : Nat} {nm ds : String} {as : List Arg}
    {cs : List CmdNode} {tokens : List String} {st st1 : PState}
    {lo : List String}
    (hscan : scanArgs opener nm (as ++ inh) (cs.map CmdNode.name) tokens
      { st with reached := i :: st.reached } = ⟨st1, lo, none, none⟩) :
    (parseCmd opener anc inh (.mk i nm ds as cs) tokens st).1 = st1 ∧
    (parseCmd opener anc inh (.mk i nm ds as cs) tokens st).2.1 = lo := by
  simp only [parseCmd]
  rw [hscan]
  exact postChecks_state anc _ false st1 lo

/-- Whether an `Options` pointer declares no custom validation callback. -/
def noValidateOpt : Option Options → Prop
  | some o => o.Validate = none
  | none => True

theorem runValidator_of_noValidate {a : Arg} (h : noValidateOpt a.opts)
    (vals : List String) : a.runValidator vals = none := by
  unfold Arg.runValidator
  rcases ho : a.opts with - | op
  · rfl
  · rw [ho] at h
    dsimp only
    rw [show op.Validate = none from h]

theorem combinedFlags_letter_fails {vis : List Arg} :
    ∀ {letters : List Char},
    (∃ ch ∈ letters, ∀ a, findArgShort vis (String.singleton ch) = some a →
      a.size ≠ 1) →
    combinedFlags vis letters = none := by
  intro letters
  induction letters with
  | nil => rintro ⟨ch, hch, -⟩; simp at hch
  | cons c cs ih =>
    rintro ⟨ch, hch, hfail⟩
    rcases List.mem_cons.mp hch with rfl | hmem
    · unfold combinedFlags
      cases hf : findArgShort vis (String.singleton ch) with
      | none => simp
      | some a =>
        have : a.size ≠ 1 := hfail a hf
        simp [this]
    · unfold combinedFlags
      cases hf : findArgShort vis (String.singleton c) with
      | none => simp
      | some a =>
        cases ha : a.size == 1
        · simp [ha]
        · simp [ha, ih ⟨ch, hmem, hfail⟩]

/-- C5: when short names `r` and `f` are both declared as zero-arity flag
descriptors visible at the same scope (as `Command.Flag` declares them), and
no validator rejects them and no child command is named `-rf`, parsing the
combined short token `-rf` sets both flag accessor cells to `true`; and
whenever any letter of a combined short token fails to resolve to a
zero-arity flag descriptor, the matcher leaves the whole token unmatched. -/
theorem c5_combined_short_flags :
    (∀ (opener : Opener) (i : Nat) (nm ds : String) (as : List Arg)
      (cs : List CmdNode) (cells0 : List Value) (ra fa : Arg),
      ra.size = 1 → fa.size = 1 →
      ra.runValidator [] = none → fa.runValidator [] = none →
      findArgShort (as ++ []) "r" = some ra →
      findArgShort (as ++ []) "f" = some fa →
      (cs.map CmdNode.name).contains "-rf" = false →
      ra.result ≠ fa.result →
      ra.result < cells0.length → fa.result < cells0.length →
      (Parse opener (.mk i nm ds as cs) cells0 ["-rf"]).1.cells[ra.result]? =
        some (.boolV true) ∧
      (Parse opener (.mk i nm ds as cs) cells0 ["-rf"]).1.cells[fa.result]? =
        some (.boolV true)) ∧
    (∀ (opener : Opener) (n t : String) (vis : List Arg)
      (rest : List String) (st : PState),
      strStartsWith t "--" = false → strStartsWith t "-" = true →
      2 < t.length →
      (∃ ch ∈ (t.drop 1).toList, ∀ a,
        findArgShort vis (String.singleton ch) = some a → a.size ≠ 1) →
      tryMatchArg opener n vis t rest st = .nomatch) := by
  constructor
  · intro opener i nm ds as cs cells0 ra fa hra hfa hvr hvf hres_r hres_f
      hcn hne hlt_r hlt_f
    have hm := @tryMatchArg_rf opener nm (as ++ [])
      { initState cells0 with reached := i :: (initState cells0).reached }
      ra fa hres_r hra hres_f hfa
    have happ := applyFlags_two
      { initState cells0 with reached := i :: (initState cells0).reached }
      hvr hvf
    have hscan := @scanArgs_one_matched opener nm (as ++ [])
      (cs.map CmdNode.name) "-rf"
      { initState cells0 with reached := i :: (initState cells0).reached }
      _ (by simpa using hcn) (hm.trans happ)
    obtain ⟨hfst, -⟩ := @parseCmd_state_of_scan opener [] [] i nm ds as cs
      ["-rf"] (initState cells0) _ _ hscan
    rw [Parse_fst, hfst]
    simp only [PState.writeCell, PState.markArg, initState]
    constructor
    · rw [List.getElem?_set_ne (Ne.symm hne), List.getElem?_set_eq_of_lt _ hlt_r]
    · rw [List.getElem?_set_eq_of_lt]
      simpa using hlt_f
  · intro opener n t vis rest st h1 h2 h3 h4
    unfold tryMatchArg
    rw [if_neg (by simp [h1]), if_neg (by omega), if_pos ⟨h2, h3⟩]
    rw [combinedFlags_letter_fails h4]

theorem c5_witness :
    (Parse (fun _ _ _ => none)
      (.mk 0 "prog" "desc"
        [{ result := 0, sname := "r", lname := "race", size := 1 },
         { result := 1, sname := "f", lname := "force", size := 1 }] [])
      [.boolV false, .boolV false] ["-rf"]).1.cells[0]? =
        some (.boolV true) ∧
    (Parse (fun _ _ _ => none)
      (.mk 0 "prog" "desc"
        [{ result := 0, sname := "r", lname := "race", size := 1 },
         { result := 1, sname := "f", lname := "force", size := 1 }] [])
      [.boolV false, .boolV false] ["-rf"]).1.cells[1]? =
        some (.boolV true) :=
  c5_combined_short_flags.1 (fun _ _ _ => none) 0 "prog" "desc"
    [{ result := 0, sname := "r", lname := "race", size := 1 },
     { result := 1, sname := "f", lname := "force", size := 1 }] []
    [.boolV false, .boolV false]
    { result := 0, sname := "r", lname := "race", size := 1 }
    { result := 1, sname := "f", lname := "force", size := 1 }
    rfl rfl rfl rfl (by rfl) (by rfl) (by rfl) (by decide) (by decide)
    (by decide)

theorem beq_empty_eq_false {s : String} (h : 0 < s.length) :
    (("" : String) == s) = false := by
  rw [beq_eq_false_iff_ne]
  intro heq
  rw [← heq] at h
  simp [String.length] at h

theorem length_drop_one (t : String) : (t.drop 1).length = t.length - 1 := by
  show (t.drop 1).data.length = t.length - 1
  rw [String.data_drop]
  exact List.length_drop 1 t.data

theorem toList_drop_one_ne_nil {t : String} (h : 2 < t.length) :
    (t.drop 1).toList ≠ [] := by
  intro hnil
  have h0 : (t.drop 1).length = 0 := by
    show (t.drop 1).data.length = 0
    rw [show (t.drop 1).data = (t.drop 1).toList from rfl, hnil]
    rfl
  rw [length_drop_one] at h0
  omega

theorem singleton_beq_empty (ch : Char) :
    (("" : String) == String.singleton ch) = false := by
  rw [beq_eq_false_iff_ne]
  intro heq
  simpa using congrArg String.data heq

theorem tryMatchArg_sname_empty_nomatch {opener : Opener} {n : String}
    {a : Arg} (ha : a.sname = "") {t : String} {rest : List String}
    {st : PState} (hss : ¬ (strStartsWith t "--" = true)) :
    tryMatchArg opener n [a] t rest st = .nomatch := by
  unfold tryMatchArg
  rw [if_neg hss]
  by_cases h2 : strStartsWith t "-" = true ∧ t.length = 2
  · rw [if_pos h2]
    have hfind : findArgShort [a] (t.drop 1) = none := by
      simp only [findArgShort, List.find?]
      rw [ha, beq_empty_eq_false (by rw [length_drop_one]; omega)]
    rw [hfind]
  · rw [if_neg h2]
    by_cases h3 : strStartsWith t "-" = true ∧ 2 < t.length
    · rw [if_pos h3]
      rcases hl : (t.drop 1).toList with - | ⟨ch, chs⟩
      · exact absurd hl (toList_drop_one_ne_nil h3.2)
      · rw [combinedFlags_letter_fails ⟨ch, by simp [hl], ?_⟩]
        intro a2 hfind
        have hnone : findArgShort [a] (String.singleton ch) = none := by
          simp only [findArgShort, List.find?]
          rw [ha, singleton_beq_empty]
        rw [hnone] at hfind
        cases hfind
    · rw [if_neg h3]

/-- The values consumed by repeated long-form occurrences of `--lname`, in
left-to-right encounter order: each occurrence consumes the single following
token; an occurrence with no following token matches nothing. -/
def longOccurrences (lname : String) : List String → List String
  | [] => []
  | t :: rest =>
    if strStartsWith t "--" = true ∧ t.drop 2 = lname then
      match rest with
      | [] => []
      | v :: rest2 => v :: longOccurrences lname rest2
    else longOccurrences lname rest

theorem longOccurrences_cons_skip {lname t : String} {rest : List String}
    (h : ¬(strStartsWith t "--" = true ∧ t.drop 2 = lname)) :
    longOccurrences lname (t :: rest) = longOccurrences lname rest := by
  conv_lhs => rw [longOccurrences.eq_def]
  dsimp only
  rw [if_neg h]

theorem scanArgs_tag (opener : Opener) (n : String) :
    ∀ (k : Nat) (tokens : List String) (xs : List String) (ad rs : List Nat),
    tokens.length ≤ k →
    ∃ ad2 lo, scanArgs opener n
      [{ result := 0, sname := "", lname := "tag", size := 2,
         unique := false }] [] tokens ⟨[.listV xs], ad, rs⟩ =
      ⟨⟨[.listV (xs ++ longOccurrences "tag" tokens)], ad2, rs⟩, lo,
        none, none⟩ := by
  intro k
  induction k with
  | zero =>
    intro tokens xs ad rs hlen
    have : tokens = [] := List.eq_nil_of_length_eq_zero (Nat.le_zero.mp hlen)
    subst this
    exact ⟨ad, [], by simp [scanArgs, longOccurrences]⟩
  | succ k ih =>
    intro tokens xs ad rs hlen
    match tokens with
    | [] => exact ⟨ad, [], by simp [scanArgs, longOccurrences]⟩
    | t :: rest =>
      simp only [List.length_cons, Nat.succ_le_succ_iff] at hlen
      unfold scanArgs
      rw [if_neg (by simp)]
      by_cases hss : strStartsWith t "--" = true
      · by_cases hname : t.drop 2 = "tag"
        · have hfind : findArgLong
              [{ result := 0, sname := "", lname := "tag", size := 2,
                 unique := false }] (t.drop 2) =
              some { result := 0, sname := "", lname := "tag", size := 2,
                     unique := false } := by
            simp [findArgLong, List.find?, hname]
          match rest with
          | [] =>
            have hm : tryMatchArg opener n
                [{ result := 0, sname := "", lname := "tag", size := 2,
                   unique := false }] t [] ⟨[.listV xs], ad, rs⟩ =
                .nomatch := by
              unfold tryMatchArg
              rw [if_pos hss, hfind]
              simp [applyArgMatch]
            rw [hm]
            refine ⟨ad, [t], ?_⟩
            simp [scanArgs, longOccurrences, hss, hname]
          | v :: rest2 =>
            have hm : tryMatchArg opener n
                [{ result := 0, sname := "", lname := "tag", size := 2,
                   unique := false }] t (v :: rest2) ⟨[.listV xs], ad, rs⟩ =
                .matched ⟨[.listV (xs ++ [v])], 0 :: ad, rs⟩ 1 := by
              unfold tryMatchArg
              rw [if_pos hss, hfind]
              simp [applyArgMatch, finishMatch, Arg.runValidator,
                PState.writeCell, PState.markArg]
            rw [hm]
            dsimp only
            obtain ⟨ad2, lo, hich⟩ := ih rest2 (xs ++ [v]) (0 :: ad) rs
              (by simp at hlen; omega)
            rw [hich]
            refine ⟨ad2, lo, ?_⟩
            simp [longOccurrences, hss, hname]
        · have hfind : findArgLong
              [{ result := 0, sname := "", lname := "tag", size := 2,
                 unique := false }] (t.drop 2) = none := by
            simp only [findArgLong, List.find?]
            rw [beq_eq_false_iff_ne.mpr (fun h => hname h.symm)]
          have hm : tryMatchArg opener n
              [{ result := 0, sname := "", lname := "tag", size := 2,
                 unique := false }] t rest ⟨[.listV xs], ad, rs⟩ =
              .nomatch := by
            unfold tryMatchArg
            rw [if_pos hss, hfind]
          rw [hm]
          dsimp only
          obtain ⟨ad2, lo, hich⟩ := ih rest xs ad rs hlen
          refine ⟨ad2, t :: lo, ?_⟩
          rw [hich, longOccurrences_cons_skip (by simp [hname])]
      · have hm := @tryMatchArg_sname_empty_nomatch opener n
          { result := 0, sname := "", lname := "tag", size := 2,
            unique := false }
          rfl t rest ⟨[.listV xs], ad, rs⟩ hss
        rw [hm]
        dsimp only
        obtain ⟨ad2, lo, hich⟩ := ih rest xs ad rs hlen
        refine ⟨ad2, t :: lo, ?_⟩
        rw [hich, longOccurrences_cons_skip (by simp [hss])]

/-- The claim's repeatable grammar, built through the source builders: a
parser scope `prog` with one `List` argument `--tag`; the third component is
the returned accessor cell. -/
def tagGrammar : CmdNode × BuildState × Nat :=
  let (p, bs) := NewParser "prog" "desc"
  p.ListArg "" "tag" none bs

/-- C6: for the repeatable (`List`) argument `--tag`, parsing any token list
leaves in the accessor cell exactly the values consumed for the argument in
left-to-right encounter order; in particular the cell is the empty list when
the argument never occurs. -/
theorem c6_repeatable_list (opener : Opener) (tokens : List String) :
    ((Parse opener tagGrammar.1 tagGrammar.2.1.cells
        tokens).1.cells[tagGrammar.2.2]? =
      some (.listV (longOccurrences "tag" tokens))) ∧
    (∀ ts : List String,
      (∀ t ∈ ts, ¬(strStartsWith t "--" = true ∧ t.drop 2 = "tag")) →
      longOccurrences "tag" ts = []) := by
  constructor
  · obtain ⟨ad2, lo, hs⟩ := scanArgs_tag opener "prog" tokens.length tokens
      [] [] [0] (le_refl _)
    have hg : tagGrammar.1 = CmdNode.mk 0 "prog" "desc"
        [{ result := 0, sname := "", lname := "tag", size := 2,
           unique := false }] [] := rfl
    have hcells : tagGrammar.2.1.cells = [Value.listV []] := rfl
    have hid : tagGrammar.2.2 = 0 := rfl
    rw [hg, hcells, hid, Parse_fst]
    obtain ⟨hfst, -⟩ := @parseCmd_state_of_scan opener [] [] 0 "prog" "desc"
      [{ result := 0, sname := "", lname := "tag", size := 2,
         unique := false }]
      [] tokens (initState [Value.listV []]) _ _ hs
    rw [hfst]
    simp
  · intro ts hts
    induction ts with
    | nil => rfl
    | cons t rest ih =>
      rw [longOccurrences_cons_skip (hts t (by simp))]
      exact ih (fun x hx => hts x (by simp [hx]))

theorem c6_witness :
    (Parse (fun _ _ _ => none) tagGrammar.1 tagGrammar.2.1.cells
      ["--tag", "x", "--tag", "y"]).1.cells[tagGrammar.2.2]? =
      some (.listV ["x", "y"]) := by
  have h := (c6_repeatable_list (fun _ _ _ => none)
    ["--tag", "x", "--tag", "y"]).1
  rwa [show longOccurrences "tag" ["--tag", "x", "--tag", "y"] = ["x", "y"]
    from by decide] at h

/-- The accessor cell at index `i` does not hold a file value (so matching it
never invokes the open capability). -/
def cellNotFile (cells : List Value) (i : Nat) : Prop :=
  ∀ p, cells[i]? = some (.fileV p) → False

theorem cellNotFile_set {cells : List Value} {i j : Nat} {v : Value}
    (hj : cellNotFile cells j) (hv : ∀ p, v ≠ .fileV p) :
    cellNotFile (cells.set i v) j := by
  intro p hp
  by_cases hij : i = j
  · subst hij
    by_cases hlt : i < cells.length
    · rw [List.getElem?_set_eq_of_lt _ hlt] at hp
      exact hv p (by simpa using hp)
    · rw [List.set_eq_of_length_le (by omega)] at hp
      exact hj p hp
  · rw [List.getElem?_set_ne hij] at hp
    exact hj p hp

/-- One token refers to the descriptor: as its long form, its short form, or
as a letter of a combined short-flag token. -/
def refersTo (t : String) (a : Arg) : Bool :=
  (strStartsWith t "--" && (a.lname == t.drop 2)) ||
  (strStartsWith t "-" && (t.length == 2) && (a.sname == t.drop 1)) ||
  (strStartsWith t "-" && decide (2 < t.length) &&
    (t.drop 1).toList.any (fun ch => a.sname == String.singleton ch))

theorem finishMatch_of_none {a : Arg} {vals : List String} {st : PState}
    {k : Nat} (h : a.runValidator vals = none) :
    finishMatch a vals st k = .matched st k := by
  unfold finishMatch
  rw [h]

theorem applyArgMatch_benign {opener : Opener} {n : String} {a : Arg}
    {rest : List String} {st : PState}
    (hsel : a.selector = none) (hval : a.noValidator = true)
    (hfile : cellNotFile st.cells a.result) :
    (∃ st1 k, applyArgMatch opener n a rest st = .matched st1 k ∧
      st1.cells.length = st.cells.length ∧
      (∀ j, cellNotFile st.cells j → cellNotFile st1.cells j) ∧
      st1.argDone = a.result :: st.argDone) ∨
    applyArgMatch opener n a rest st = .nomatch := by
  have hrv : ∀ vals, a.runValidator vals = none := by
    intro vals
    unfold Arg.runValidator
    unfold Arg.noValidator at hval
    rcases ho : a.opts with - | op
    · rfl
    · rw [ho] at hval
      dsimp only
      rw [Option.isNone_iff_eq_none.mp hval]
  unfold applyArgMatch
  rcases hc : st.cells[a.result]? with - | v
  · right; rfl
  · cases v with
    | boolV b =>
      left
      dsimp only
      rw [finishMatch_of_none (hrv [])]
      refine ⟨_, 0, rfl, by simp [PState.writeCell, PState.markArg], ?_, rfl⟩
      intro j hjf
      exact cellNotFile_set hjf (by intro p h; cases h)
    | strV s =>
      cases rest with
      | nil => right; rfl
      | cons v2 rest2 =>
        left
        dsimp only
        rw [hsel, finishMatch_of_none (hrv [v2])]
        refine ⟨_, 1, rfl, by simp [PState.writeCell, PState.markArg], ?_, rfl⟩
        intro j hjf
        exact cellNotFile_set hjf (by intro p h; cases h)
    | listV xs =>
      cases rest with
      | nil => right; rfl
      | cons v2 rest2 =>
        left
        dsimp only
        rw [finishMatch_of_none (hrv [v2])]
        refine ⟨_, 1, rfl, by simp [PState.writeCell, PState.markArg], ?_, rfl⟩
        intro j hjf
        exact cellNotFile_set hjf (by intro p h; cases h)
    | fileV p => exact absurd hc (by intro h; exact hfile p h)

theorem runValidator_none_of_noValidator {a : Arg} (h : a.noValidator = true)
    (vals : List String) : a.runValidator vals = none := by
  unfold Arg.runValidator
  unfold Arg.noValidator at h
  rcases ho : a.opts with - | op
  · rfl
  · rw [ho] at h
    dsimp only
    rw [Option.isNone_iff_eq_none.mp h]

theorem applyFlags_benign :
    ∀ {flags : List Arg} {st : PState},
    (∀ a ∈ flags, a.noValidator = true) →
    ∃ st1, applyFlags flags st = .matched st1 0 ∧
      st1.cells.length = st.cells.length ∧
      (∀ j, cellNotFile st.cells j → cellNotFile st1.cells j) ∧
      (∀ j, j ∈ st1.argDone → j ∈ st.argDone ∨ ∃ b ∈ flags, b.result = j) := by
  intro flags
  induction flags with
  | nil =>
    intro st _
    exact ⟨st, rfl, rfl, fun j h => h, fun j h => .inl h⟩
  | cons a as' ih =>
    intro st hval
    unfold applyFlags
    rw [finishMatch_of_none
      (runValidator_none_of_noValidator (hval a (by simp)) [])]
    obtain ⟨st1, happ, hlen, hnf, had⟩ :=
      @ih ((st.writeCell a.result (.boolV true)).markArg a.result)
        (fun b hb => hval b (by simp [hb]))
    refine ⟨st1, happ, ?_, ?_, ?_⟩
    · rw [hlen]
      simp [PState.writeCell, PState.markArg]
    · intro j hj
      refine hnf j ?_
      exact cellNotFile_set hj (by intro p h; cases h)
    · intro j hj
      rcases had j hj with hold | ⟨b, hb, hbr⟩
      · simp only [PState.markArg, PState.writeCell, List.mem_cons] at hold
        rcases hold with rfl | hold
        · exact .inr ⟨a, by simp, rfl⟩
        · exact .inl hold
      · exact .inr ⟨b, by simp [hb], hbr⟩

theorem combinedFlags_props {vis : List Arg} :
    ∀ {letters : List Char} {flags : List Arg},
    combinedFlags vis letters = some flags →
    ∀ a ∈ flags, ∃ ch ∈ letters,
      findArgShort vis (String.singleton ch) = some a := by
  intro letters
  induction letters with
  | nil =>
    intro flags h a ha
    obtain rfl : flags = [] := by simpa [combinedFlags] using h.symm
    cases ha
  | cons c cs ih =>
    intro flags h a ha
    unfold combinedFlags at h
    split at h
    case _ b hf =>
      split at h
      · obtain ⟨flags2, hrest, hflags⟩ := Option.map_eq_some'.mp h
        subst hflags
        rcases List.mem_cons.mp ha with rfl | hmem
        · exact ⟨c, by simp, hf⟩
        · obtain ⟨ch, hch, hfind⟩ := ih hrest a hmem
          exact ⟨ch, by simp [hch], hfind⟩
      · cases h
    case _ => cases h

theorem tryMatchArg_benign {opener : Opener} {n : String} {vis : List Arg}
    {t : String} {rest : List String} {st : PState}
    (hben : ∀ a ∈ vis, a.selector = none ∧ a.noValidator = true)
    (hnf : ∀ a ∈ vis, cellNotFile st.cells a.result) :
    (∃ st1 k, tryMatchArg opener n vis t rest st = .matched st1 k ∧
      st1.cells.length = st.cells.length ∧
      (∀ j, cellNotFile st.cells j → cellNotFile st1.cells j) ∧
      (∀ j, j ∈ st1.argDone → j ∈ st.argDone ∨
        ∃ b ∈ vis, b.result = j ∧ refersTo t b = true)) ∨
    tryMatchArg opener n vis t rest st = .nomatch := by
  unfold tryMatchArg
  by_cases h1 : strStartsWith t "--" = true
  · rw [if_pos h1]
    rcases hf : findArgLong vis (t.drop 2) with - | a
    · right; rfl
    · have hf2 : vis.find? (fun b => b.lname == t.drop 2) = some a := hf
      have hmem : a ∈ vis := List.mem_of_find?_eq_some hf2
      have hpred : (a.lname == t.drop 2) = true := by
        simpa using List.find?_some hf2
      obtain ⟨hsel, hval⟩ := hben a hmem
      rcases @applyArgMatch_benign opener n a rest st
          hsel hval (hnf a hmem) with ⟨st1, k, hm, hlen, hpres, had⟩ | hm
      · left
        refine ⟨st1, k, hm, hlen, hpres, ?_⟩
        intro j hj
        rw [had] at hj
        rcases List.mem_cons.mp hj with rfl | hold
        · refine .inr ⟨a, hmem, rfl, ?_⟩
          unfold refersTo
          rw [h1, hpred]
          simp
        · exact .inl hold
      · right; exact hm
  · rw [if_neg h1]
    by_cases h2 : strStartsWith t "-" = true ∧ t.length = 2
    · rw [if_pos h2]
      rcases hf : findArgShort vis (t.drop 1) with - | a
      · right; rfl
      · have hf2 : vis.find? (fun b => b.sname == t.drop 1) = some a := hf
        have hmem : a ∈ vis := List.mem_of_find?_eq_some hf2
        have hpred : (a.sname == t.drop 1) = true := by
          simpa using List.find?_some hf2
        obtain ⟨hsel, hval⟩ := hben a hmem
        rcases @applyArgMatch_benign opener n a rest st
            hsel hval (hnf a hmem) with ⟨st1, k, hm, hlen, hpres, had⟩ | hm
        · left
          refine ⟨st1, k, hm, hlen, hpres, ?_⟩
          intro j hj
          rw [had] at hj
          rcases List.mem_cons.mp hj with rfl | hold
          · refine .inr ⟨a, hmem, rfl, ?_⟩
            unfold refersTo
            rw [h2.1, hpred]
            simp [h2.2]
          · exact .inl hold
        · right; exact hm
    · rw [if_neg h2]
      by_cases h3 : strStartsWith t "-" = true ∧ 2 < t.length
      · rw [if_pos h3]
        rcases hcf : combinedFlags vis (t.drop 1).toList with - | flags
        · right; rfl
        · have hprops := combinedFlags_props hcf
          have hsub : ∀ a ∈ flags, a ∈ vis := by
            intro a ha
            obtain ⟨ch, -, hfind⟩ := hprops a ha
            exact List.mem_of_find?_eq_some
              (show vis.find? (fun b => b.sname == String.singleton ch) =
                some a from hfind)
          obtain ⟨st1, happ, hlen, hpres, had⟩ :=
            @applyFlags_benign flags st (fun a ha => (hben a (hsub a ha)).2)
          left
          refine ⟨st1, 0, happ, hlen, hpres, ?_⟩
          intro j hj
          rcases had j hj with hold | ⟨b, hb, hbr⟩
          · exact .inl hold
          · refine .inr ⟨b, hsub b hb, hbr, ?_⟩
            obtain ⟨ch, hch, hfind⟩ := hprops b hb
            have hpred : (b.sname == String.singleton ch) = true := by
              simpa using List.find?_some (show vis.find?
                (fun b2 => b2.sname == String.singleton ch) = some b from hfind)
            have hany : ((t.drop 1).toList.any
                (fun ch => b.sname == String.singleton ch)) = true :=
              List.any_eq_true.mpr ⟨ch, hch, hpred⟩
            unfold refersTo
            rw [h3.1, hany]
            simp [h3.2]
      · rw [if_neg h3]
        right
        rfl

theorem scanArgs_benign {opener : Opener} {n : String} {vis : List Arg}
    {childNames : List String} :
    ∀ (k : Nat) (tokens : List String) (st : PState), tokens.length ≤ k →
    (∀ a ∈ vis, a.selector = none ∧ a.noValidator = true) →
    (∀ a ∈ vis, cellNotFile st.cells a.result) →
    (∀ t ∈ tokens, childNames.contains t = false) →
    (scanArgs opener n vis childNames tokens st).err = none ∧
    (scanArgs opener n vis childNames tokens st).descend = none ∧
    (∀ j, j ∈ (scanArgs opener n vis childNames tokens st).st.argDone →
      j ∈ st.argDone ∨ ∃ b ∈ vis, b.result = j ∧
        ∃ t ∈ tokens, refersTo t b = true) := by
  intro k
  induction k with
  | zero =>
    intro tokens st hlen _ _ _
    have : tokens = [] := List.eq_nil_of_length_eq_zero (Nat.le_zero.mp hlen)
    subst this
    exact ⟨rfl, rfl, fun j h => .inl h⟩
  | succ k ih =>
    intro tokens st hlen hben hnf hcn
    match tokens with
    | [] => exact ⟨rfl, rfl, fun j h => .inl h⟩
    | t :: rest =>
      simp only [List.length_cons, Nat.succ_le_succ_iff] at hlen
      unfold scanArgs
      rw [if_neg (by simpa using hcn t (by simp))]
      rcases @tryMatchArg_benign opener n vis t rest st
          hben hnf with ⟨st1, kc, hm, hlen1, hpres, had⟩ | hm
      · rw [hm]
        have hnf1 : ∀ a ∈ vis, cellNotFile st1.cells a.result :=
          fun a ha => hpres _ (hnf a ha)
        cases kc with
        | zero =>
          obtain ⟨he, hd, hdone⟩ := ih rest st1 hlen hben hnf1
            (fun t2 ht2 => hcn t2 (by simp [ht2]))
          refine ⟨he, hd, ?_⟩
          intro j hj
          rcases hdone j hj with hj1 | ⟨b, hb, hbr, t2, ht2, href⟩
          · rcases had j hj1 with hj2 | ⟨b, hb, hbr, href⟩
            · exact .inl hj2
            · exact .inr ⟨b, hb, hbr, t, by simp, href⟩
          · exact .inr ⟨b, hb, hbr, t2, by simp [ht2], href⟩
        | succ kc2 =>
          match rest with
          | [] =>
            refine ⟨rfl, rfl, ?_⟩
            intro j hj
            rcases had j hj with hj2 | ⟨b, hb, hbr, href⟩
            · exact .inl hj2
            · exact .inr ⟨b, hb, hbr, t, by simp, href⟩
          | v :: rest2 =>
            obtain ⟨he, hd, hdone⟩ := ih rest2 st1 (by simp at hlen; omega)
              hben hnf1 (fun t2 ht2 => hcn t2 (by simp [ht2]))
            refine ⟨he, hd, ?_⟩
            intro j hj
            rcases hdone j hj with hj1 | ⟨b, hb, hbr, t2, ht2, href⟩
            · rcases had j hj1 with hj2 | ⟨b, hb, hbr, href⟩
              · exact .inl hj2
              · exact .inr ⟨b, hb, hbr, t, by simp, href⟩
            · exact .inr ⟨b, hb, hbr, t2, by simp [ht2], href⟩
      · rw [hm]
        obtain ⟨he, hd, hdone⟩ := ih rest st hlen hben hnf
          (fun t2 ht2 => hcn t2 (by simp [ht2]))
        refine ⟨he, hd, ?_⟩
        intro j hj
        rcases hdone j hj with hj1 | ⟨b, hb, hbr, t2, ht2, href⟩
        · exact .inl hj1
        · exact .inr ⟨b, hb, hbr, t2, by simp [ht2], href⟩

theorem contains_eq_false_of_forall_ne {α : Type} [BEq α] [LawfulBEq α]
    {l : List α} {x : α} (h : ∀ y ∈ l, y ≠ x) : l.contains x = false := by
  rw [Bool.eq_false_iff]
  intro hc
  exact h x (List.elem_iff.mp hc) rfl

theorem Parse_snd_of_err {opener : Opener} {root : CmdNode}
    {cells0 : List Value} {args : List String} {e : PError}
    (h : (parseCmd opener [] [] root args (initState cells0)).2.2 = some e) :
    (Parse opener root cells0 args).2 = some e := by
  rcases hp : parseCmd opener [] [] root args (initState cells0) with
    ⟨st, lo, err⟩
  rw [hp] at h
  obtain rfl : err = some e := by simpa using h
  simp only [Parse]
  rw [hp]

theorem parseCmd_err_of_scan {opener : Opener} {anc : List CmdNode}
    {inh : List Arg} {i : Nat} {nm ds : String} {as : List Arg}
    {cs : List CmdNode} {tokens : List String} {st st1 : PState}
    {lo : List String}
    (hscan : scanArgs opener nm (as ++ inh) (cs.map CmdNode.name) tokens
      { st with reached := i :: st.reached } = ⟨st1, lo, none, none⟩) :
    (parseCmd opener anc inh (.mk i nm ds as cs) tokens st).2.2 =
      (postChecks anc (.mk i nm ds as cs) false st1 lo).2.2 := by
  simp only [parseCmd]
  rw [hscan]

theorem find?_required_unique {as : List Arg} {a : Arg} {done : List Nat}
    (ha : a ∈ as) (hreq : a.isRequired = true)
    (huniq : ∀ b ∈ as, b.isRequired = true → b = a)
    (hnd : done.contains a.result = false) :
    as.find? (fun b => b.isRequired && !done.contains b.result) = some a := by
  induction as with
  | nil => cases ha
  | cons b bs ih =>
    rw [List.find?_cons]
    have hnd2 : a.result ∉ done := by
      intro hmem
      have h2 : done.contains a.result = true := List.elem_iff.mpr hmem
      rw [h2] at hnd
      cases hnd
    by_cases hb : b = a
    · rw [hb]
      simp [hreq, hnd2]
    · have hbreq : b.isRequired = false := by
        rcases hbr : b.isRequired with - | -
        · rfl
        · exact absurd (huniq b (by simp) hbr) hb
      have hmem : a ∈ bs := by
        rcases List.mem_cons.mp ha with rfl | h2
        · exact absurd rfl hb
        · exact h2
      simp only [hbreq, Bool.false_and, if_false]
      exact ih hmem (fun b2 hb2 => huniq b2 (by simp [hb2]))

/-- C2: when a scope declares child commands (as `NewCommand` declares them)
and the token list names none of them, and the scope's own arguments are
benign (no validator, selector or file involvement) with none required, Parse
returns the missing-required-sub-command error carrying the reference to that
scope; the check fires for any non-empty child list, so every declared
command is required in this sense. -/
theorem c2_missing_required_sub_command (opener : Opener) (i : Nat)
    (nm ds : String) (as : List Arg) (cs : List CmdNode)
    (cells0 : List Value) (tokens : List String)
    (hcs : cs ≠ [])
    (hben : ∀ a ∈ as, a.selector = none ∧ a.noValidator = true)
    (hnf : ∀ a ∈ as, cellNotFile cells0 a.result)
    (hnoreq : ∀ a ∈ as, a.isRequired = false)
    (hname : ∀ t ∈ tokens, ∀ ch ∈ cs, ch.name ≠ t) :
    (Parse opener (.mk i nm ds as cs) cells0 tokens).2 =
      some (.MissingRequiredSubCommand [] (.mk i nm ds as cs)) := by
  have hben2 : ∀ a ∈ as ++ ([] : List Arg),
      a.selector = none ∧ a.noValidator = true := by simpa using hben
  have hnf2 : ∀ a ∈ as ++ ([] : List Arg),
      cellNotFile ({ initState cells0 with
        reached := i :: (initState cells0).reached } : PState).cells
        a.result := by
    simpa [initState] using hnf
  have hcn2 : ∀ t ∈ tokens, ((cs.map CmdNode.name).contains t) = false := by
    intro t ht
    refine contains_eq_false_of_forall_ne ?_
    intro y hy
    obtain ⟨ch, hch, rfl⟩ := List.mem_map.mp hy
    exact hname t ht ch hch
  obtain ⟨he, hd, -⟩ := @scanArgs_benign opener nm
    (as ++ []) (cs.map CmdNode.name) tokens.length tokens
    { initState cells0 with reached := i :: (initState cells0).reached }
    (le_refl _) hben2 hnf2 hcn2
  rcases hs : scanArgs opener nm (as ++ []) (cs.map CmdNode.name) tokens
      { initState cells0 with reached := i :: (initState cells0).reached } with
    ⟨st1, lo, d, e⟩
  rw [hs] at he hd
  obtain rfl : e = none := he
  obtain rfl : d = none := hd
  apply Parse_snd_of_err
  rw [@parseCmd_err_of_scan opener [] [] i nm ds as cs tokens
    (initState cells0) st1 lo hs]
  unfold postChecks
  have hfm : firstMissingRequired (CmdNode.mk i nm ds as cs).name
      (CmdNode.mk i nm ds as cs).args st1.argDone = none := by
    unfold firstMissingRequired
    rw [List.find?_eq_none.mpr]
    intro aa haa
    simp [hnoreq aa (by simpa [CmdNode.args] using haa)]
  rw [hfm]
  have hcsne : (CmdNode.mk i nm ds as cs).commands.isEmpty = false := by
    simp [CmdNode.commands]
    exact hcs
  rw [if_pos (by simp [hcsne])]

/-- C1: a scope whose argument list contains the unique descriptor declared
`Required`, with benign co-arguments (no validator, selector or file
involvement) and distinct accessor cells, parsing any token list in which no
token refers to that descriptor (long form, short form, or combined-flag
letter) returns the missing-required-argument error naming the scope and the
descriptor's long name, regardless of which other optional arguments were
matched. -/
theorem c1_missing_required_argument (opener : Opener) (i : Nat) (nm ds : String) (as : List Arg)
    (cells0 : List Value) (tokens : List String) (a : Arg)
    (ha : a ∈ as) (hreq : a.isRequired = true)
    (huniq : ∀ b ∈ as, b.isRequired = true → b = a)
    (hdist : ∀ b ∈ as, b.result = a.result → b = a)
    (hben : ∀ b ∈ as, b.selector = none ∧ b.noValidator = true)
    (hnf : ∀ b ∈ as, cellNotFile cells0 b.result)
    (href : ∀ t ∈ tokens, refersTo t a = false) :
    (Parse opener (.mk i nm ds as []) cells0 tokens).2 =
      some (.MissingRequiredArgument nm a.lname) := by
  have hben2 : ∀ b ∈ as ++ ([] : List Arg),
      b.selector = none ∧ b.noValidator = true := by simpa using hben
  have hnf2 : ∀ b ∈ as ++ ([] : List Arg),
      cellNotFile ({ initState cells0 with
        reached := i :: (initState cells0).reached } : PState).cells
        b.result := by
    simpa [initState] using hnf
  have hcn2 : ∀ t ∈ tokens,
      ((([] : List CmdNode).map CmdNode.name).contains t) = false := by
    intro t ht
    rfl
  obtain ⟨he, hd, hdone⟩ := @scanArgs_benign opener nm
    (as ++ []) (([] : List CmdNode).map CmdNode.name)
    tokens.length tokens
    { initState cells0 with reached := i :: (initState cells0).reached }
    (le_refl _) hben2 hnf2 hcn2
  rcases hs : scanArgs opener nm (as ++ [])
      (([] : List CmdNode).map CmdNode.name) tokens
      { initState cells0 with reached := i :: (initState cells0).reached } with
    ⟨st1, lo, d, e⟩
  rw [hs] at he hd hdone
  obtain rfl : e = none := he
  obtain rfl : d = none := hd
  have hnd : st1.argDone.contains a.result = false := by
    rw [Bool.eq_false_iff]
    intro hc
    have hmem : a.result ∈ st1.argDone := List.elem_iff.mp hc
    rcases hdone a.result hmem with h0 | ⟨b, hb, hbr, t, ht, hrf⟩
    · simp [initState] at h0
    · have hba : b = a := hdist b (by simpa using hb) hbr
      rw [hba] at hrf
      rw [href t ht] at hrf
      cases hrf
  apply Parse_snd_of_err
  rw [@parseCmd_err_of_scan opener [] [] i nm ds as [] tokens
    (initState cells0) st1 lo hs]
  unfold postChecks
  have hfm : firstMissingRequired (CmdNode.mk i nm ds as []).name
      (CmdNode.mk i nm ds as []).args st1.argDone =
      some (.MissingRequiredArgument nm a.lname) := by
    unfold firstMissingRequired
    rw [show (CmdNode.mk i nm ds as []).args = as from rfl,
        show (CmdNode.mk i nm ds as []).name = nm from rfl,
        find?_required_unique ha hreq huniq hnd]
  rw [hfm]

theorem c1_witness :
    (Parse (fun _ _ _ => none)
      (.mk 0 "prog" "desc"
        [{ result := 0, sname := "v", lname := "verbose", size := 1 },
         { result := 1, sname := "", lname := "name", size := 2,
           opts := some { Required := true } }] [])
      [.boolV false, .strV ""] ["-v"]).2 =
      some (.MissingRequiredArgument "prog" "name") :=
  c1_missing_required_argument (fun _ _ _ => none) 0 "prog" "desc"
    [{ result := 0, sname := "v", lname := "verbose", size := 1 },
     { result := 1, sname := "", lname := "name", size := 2,
       opts := some { Required := true } }]
    [.boolV false, .strV ""] ["-v"]
    { result := 1, sname := "", lname := "name", size := 2,
      opts := some { Required := true } }
    (by simp) rfl
    (by intro b hb hbr
        rcases List.mem_cons.mp hb with rfl | hb2
        · cases hbr
        · rcases List.mem_cons.mp hb2 with rfl | hb3
          · rfl
          · cases hb3)
    (by intro b hb hbr
        rcases List.mem_cons.mp hb with rfl | hb2
        · cases hbr
        · rcases List.mem_cons.mp hb2 with rfl | hb3
          · rfl
          · cases hb3)
    (by intro b hb
        rcases List.mem_cons.mp hb with rfl | hb2
        · exact ⟨rfl, rfl⟩
        · rcases List.mem_cons.mp hb2 with rfl | hb3
          · exact ⟨rfl, rfl⟩
          · cases hb3)
    (by intro b hb
        rcases List.mem_cons.mp hb with rfl | hb2
        · intro p hp
          simp at hp
        · rcases List.mem_cons.mp hb2 with rfl | hb3
          · intro p hp
            simp at hp
          · cases hb3)
    (by intro t ht
        rcases List.mem_cons.mp ht with rfl | ht2
        · decide
        · cases ht2)

theorem c2_witness :
    (Parse (fun _ _ _ => none)
      (.mk 0 "prog" "desc" [] [.mk 1 "sub" "sd" [] []]) [] ["extra"]).2 =
      some (.MissingRequiredSubCommand []
        (.mk 0 "prog" "desc" [] [.mk 1 "sub" "sd" [] []])) :=
  c2_missing_required_sub_command (fun _ _ _ => none) 0 "prog" "desc"
    [] [.mk 1 "sub" "sd" [] []] [] ["extra"]
    (by intro h; cases h)
    (by intro a ha; cases ha)
    (by intro a ha; cases ha)
    (by intro a ha; cases ha)
    (by intro t ht ch hch
        rcases List.mem_cons.mp ht with rfl | ht2
        · rcases List.mem_cons.mp hch with rfl | hch2
          · decide
          · cases hch2
        · cases ht2)

/-- The reached marks produced by one parse of scope `c` form a path: the
scope itself, extended through the child command descended into, innermost
node first. -/
inductive PathFrom : CmdNode → List CmdNode → Prop where
  | leaf (c : CmdNode) : PathFrom c [c]
  | step (c ch : CmdNode) (tail : List CmdNode) (hch : ch ∈ c.commands)
      (ht : PathFrom ch tail) : PathFrom c (tail ++ [c])

/-- State evolution writes only the accessor cells of the allowed descriptors
and leaves the reached marks alone. -/
def framePreserves (allowed : List Arg) (st st1 : PState) : Prop :=
  st1.reached = st.reached ∧
  ∀ j, (∀ b ∈ allowed, b.result ≠ j) → st1.cells[j]? = st.cells[j]?

theorem framePreserves_refl (allowed : List Arg) (st : PState) :
    framePreserves allowed st st := ⟨rfl, fun _ _ => rfl⟩

theorem framePreserves_trans {allowed : List Arg} {st st1 st2 : PState}
    (h1 : framePreserves allowed st st1)
    (h2 : framePreserves allowed st1 st2) :
    framePreserves allowed st st2 :=
  ⟨h2.1.trans h1.1, fun j hj => (h2.2 j hj).trans (h1.2 j hj)⟩

theorem framePreserves_mono {al1 al2 : List Arg} {st st1 : PState}
    (hsub : ∀ b ∈ al1, b ∈ al2) (h : framePreserves al1 st st1) :
    framePreserves al2 st st1 :=
  ⟨h.1, fun j hj => h.2 j (fun b hb => hj b (hsub b hb))⟩

theorem framePreserves_write {allowed : List Arg} {a : Arg} {st : PState}
    (ha : a ∈ allowed) (v : Value) (i : Nat) :
    framePreserves allowed st
      ((st.writeCell a.result v).markArg i) := by
  refine ⟨rfl, fun j hj => ?_⟩
  simp only [PState.markArg, PState.writeCell]
  rw [List.getElem?_set_ne (hj a ha)]

theorem applyArgMatch_frame {opener : Opener} {n : String} {a : Arg}
    {rest : List String} {st : PState} {allowed : List Arg}
    (ha : a ∈ allowed) : ∀ {st1 : PState},
    ((∃ k, applyArgMatch opener n a rest st = .matched st1 k) ∨
     (∃ e, applyArgMatch opener n a rest st = .failed st1 e)) →
    framePreserves allowed st st1 := by
  intro st1 h
  unfold applyArgMatch finishMatch at h
  rcases h with ⟨k, h⟩ | ⟨e, h⟩ <;>
    repeat' split at h
  all_goals try cases h
  all_goals first
    | exact framePreserves_refl _ _
    | exact framePreserves_write ha _ _

theorem finishMatch_matched_state {a : Arg} {vals : List String}
    {st st1 : PState} {k k2 : Nat}
    (h : finishMatch a vals st k = .matched st1 k2) : st1 = st := by
  unfold finishMatch at h
  split at h <;> cases h <;> rfl

theorem finishMatch_failed_state {a : Arg} {vals : List String}
    {st st1 : PState} {k : Nat} {e : PError}
    (h : finishMatch a vals st k = .failed st1 e) : st1 = st := by
  unfold finishMatch at h
  split at h <;> cases h <;> rfl

theorem applyFlags_frame {allowed : List Arg} :
    ∀ {flags : List Arg} {st st1 : PState}, (∀ b ∈ flags, b ∈ allowed) →
    ((∃ k, applyFlags flags st = .matched st1 k) ∨
     (∃ e, applyFlags flags st = .failed st1 e)) →
    framePreserves allowed st st1 := by
  intro flags
  induction flags with
  | nil =>
    intro st st1 _ h
    rcases h with ⟨k, h⟩ | ⟨e, h⟩
    · cases h
      exact framePreserves_refl _ _
    · cases h
  | cons a as' ih =>
    intro st st1 hsub h
    have hstep : framePreserves allowed st
        ((st.writeCell a.result (.boolV true)).markArg a.result) :=
      framePreserves_write (hsub a (by simp)) _ _
    unfold applyFlags at h
    rcases hfm : finishMatch a []
        ((st.writeCell a.result (.boolV true)).markArg a.result) 0 with
      ⟨stq, k2⟩ | - | ⟨stq, e2⟩ <;> rw [hfm] at h <;> dsimp only at h
    · have h2 := finishMatch_matched_state hfm
      subst h2
      exact framePreserves_trans hstep
        (ih (fun b hb => hsub b (by simp [hb])) h)
    · rcases h with ⟨k, h⟩ | ⟨e, h⟩ <;> cases h
    · have h2 := finishMatch_failed_state hfm
      subst h2
      rcases h with ⟨k, h⟩ | ⟨e, h⟩
      · cases h
      · cases h
        exact hstep

theorem tryMatchArg_frame {opener : Opener} {n : String} {vis : List Arg}
    {t : String} {rest : List String} {st : PState} : ∀ {st1 : PState},
    ((∃ k, tryMatchArg opener n vis t rest st = .matched st1 k) ∨
     (∃ e, tryMatchArg opener n vis t rest st = .failed st1 e)) →
    framePreserves vis st st1 := by
  intro st1 h
  unfold tryMatchArg at h
  by_cases h1 : strStartsWith t "--" = true
  · rw [if_pos h1] at h
    rcases hf : findArgLong vis (t.drop 2) with - | a <;> rw [hf] at h <;>
      dsimp only at h
    · rcases h with ⟨k, h⟩ | ⟨e, h⟩ <;> cases h
    · exact applyArgMatch_frame (List.mem_of_find?_eq_some
        (show vis.find? (fun b => b.lname == t.drop 2) = some a from hf)) h
  · rw [if_neg h1] at h
    by_cases h2 : strStartsWith t "-" = true ∧ t.length = 2
    · rw [if_pos h2] at h
      rcases hf : findArgShort vis (t.drop 1) with - | a <;> rw [hf] at h <;>
        dsimp only at h
      · rcases h with ⟨k, h⟩ | ⟨e, h⟩ <;> cases h
      · exact applyArgMatch_frame (List.mem_of_find?_eq_some
          (show vis.find? (fun b => b.sname == t.drop 1) = some a from hf)) h
    · rw [if_neg h2] at h
      by_cases h3 : strStartsWith t "-" = true ∧ 2 < t.length
      · rw [if_pos h3] at h
        rcases hcf : combinedFlags vis (t.drop 1).toList with - | flags <;>
          rw [hcf] at h <;> dsimp only at h
        · rcases h with ⟨k, h⟩ | ⟨e, h⟩ <;> cases h
        · refine applyFlags_frame ?_ h
          intro b hb
          obtain ⟨ch, -, hfind⟩ := combinedFlags_props hcf b hb
          exact List.mem_of_find?_eq_some (show vis.find?
            (fun b2 => b2.sname == String.singleton ch) = some b from hfind)
      · rw [if_neg h3] at h
        rcases h with ⟨k, h⟩ | ⟨e, h⟩ <;> cases h

theorem scanArgs_frame {opener : Opener} {n : String} {vis : List Arg}
    {childNames : List String} :
    ∀ (k : Nat) (tokens : List String) (st : PState), tokens.length ≤ k →
    framePreserves vis st (scanArgs opener n vis childNames tokens st).st := by
  intro k
  induction k with
  | zero =>
    intro tokens st hlen
    have : tokens = [] := List.eq_nil_of_length_eq_zero (Nat.le_zero.mp hlen)
    subst this
    exact framePreserves_refl _ _
  | succ k ih =>
    intro tokens st hlen
    match tokens with
    | [] => exact framePreserves_refl _ _
    | t :: rest =>
      simp only [List.length_cons, Nat.succ_le_succ_iff] at hlen
      unfold scanArgs
      by_cases hcn : childNames.contains t = true
      · rw [if_pos hcn]
        exact framePreserves_refl _ _
      · rw [if_neg hcn]
        rcases hm : tryMatchArg opener n vis t rest st with
          ⟨st1, k2⟩ | - | ⟨st1, e⟩
        · have hstep : framePreserves vis st st1 :=
            tryMatchArg_frame (.inl ⟨k2, hm⟩)
          cases k2 with
          | zero =>
            exact framePreserves_trans hstep (ih rest st1 hlen)
          | succ k3 =>
            match rest with
            | [] => exact hstep
            | v :: rest2 =>
              exact framePreserves_trans hstep
                (ih rest2 st1 (by simp at hlen; omega))
        · exact ih rest st hlen
        · exact tryMatchArg_frame (.inr ⟨e, hm⟩)

theorem descendFirst_cases (opener : Opener) (anc : List CmdNode)
    (inh : List Arg) :
    ∀ (cs : List CmdNode) (t : String) (tokens : List String) (st : PState),
    descendFirst opener anc inh cs t tokens st = (st, t :: tokens, none) ∨
    ∃ ch ∈ cs, descendFirst opener anc inh cs t tokens st =
      parseCmd opener anc inh ch tokens st := by
  intro cs
  induction cs with
  | nil => intro t tokens st; exact .inl rfl
  | cons ch cs' ih =>
    intro t tokens st
    unfold descendFirst
    by_cases hname : (ch.name == t) = true
    · rw [if_pos hname]
      exact .inr ⟨ch, by simp, rfl⟩
    · rw [if_neg hname]
      rcases ih t tokens st with h | ⟨ch2, hch2, h⟩
      · exact .inl h
      · exact .inr ⟨ch2, by simp [hch2], h⟩

theorem parseCmd_reached_path :
    ∀ (s : Nat) (c : CmdNode), sizeOf c ≤ s →
    ∀ (opener : Opener) (anc : List CmdNode) (vis : List Arg)
      (tokens : List String) (st : PState),
    ∃ chain, PathFrom c chain ∧
      (parseCmd opener anc vis c tokens st).1.reached =
        chain.map CmdNode.nodeId ++ st.reached ∧
      (∀ j, (∀ b ∈ vis, b.result ≠ j) →
        (∀ m ∈ chain, ∀ b ∈ m.args, b.result ≠ j) →
        (parseCmd opener anc vis c tokens st).1.cells[j]? = st.cells[j]?) := by
  intro s
  induction s with
  | zero =>
    intro c hc
    cases c with
    | mk i nm ds as cs => simp [CmdNode.mk.sizeOf_spec] at hc
  | succ s ih =>
    intro c hc opener anc vis tokens st
    cases c with
    | mk i nm ds as cs =>
      have hsub : ∀ ch ∈ cs, sizeOf ch ≤ s := by
        intro ch hch
        have h1 : sizeOf ch < sizeOf cs := List.sizeOf_lt_of_mem hch
        have h2 : sizeOf cs < sizeOf (CmdNode.mk i nm ds as cs) := by
          simp [CmdNode.mk.sizeOf_spec]
        omega
      have hscanf := @scanArgs_frame opener nm
        (as ++ vis) (cs.map CmdNode.name) tokens.length
        tokens { st with reached := i :: st.reached } (le_refl _)
      rcases hs : scanArgs opener nm (as ++ vis) (cs.map CmdNode.name) tokens
        { st with reached := i :: st.reached } with ⟨st1, lo, d, e⟩
      rw [hs] at hscanf
      obtain ⟨hr1, hcellsf⟩ := hscanf
      simp only at hr1 hcellsf
      have hconds : ∀ (j : Nat), (∀ b ∈ vis, b.result ≠ j) →
          (∀ b ∈ as, b.result ≠ j) → (∀ b ∈ as ++ vis, b.result ≠ j) := by
        intro j hv ha b hb
        rcases List.mem_append.mp hb with hb | hb
        · exact ha b hb
        · exact hv b hb
      simp only [parseCmd]
      rw [hs]
      cases e with
      | some e2 =>
        cases d with
        | none =>
          refine ⟨[CmdNode.mk i nm ds as cs], PathFrom.leaf _, ?_, ?_⟩
          · simpa [CmdNode.nodeId] using hr1
          · intro j hv hchain
            refine (hcellsf j (hconds j hv ?_)).trans rfl
            intro b hb
            exact hchain (CmdNode.mk i nm ds as cs) (by simp) b (by simpa [CmdNode.args] using hb)
        | some p =>
          rcases p with ⟨t, rest⟩
          refine ⟨[CmdNode.mk i nm ds as cs], PathFrom.leaf _, ?_, ?_⟩
          · simpa [CmdNode.nodeId] using hr1
          · intro j hv hchain
            refine (hcellsf j (hconds j hv ?_)).trans rfl
            intro b hb
            exact hchain (CmdNode.mk i nm ds as cs) (by simp) b (by simpa [CmdNode.args] using hb)
      | none =>
        cases d with
        | none =>
          refine ⟨[CmdNode.mk i nm ds as cs], PathFrom.leaf _, ?_, ?_⟩
          · rw [(postChecks_state anc _ false st1 lo).1]
            simpa [CmdNode.nodeId] using hr1
          · intro j hv hchain
            rw [(postChecks_state anc _ false st1 lo).1]
            refine (hcellsf j (hconds j hv ?_)).trans rfl
            intro b hb
            exact hchain (CmdNode.mk i nm ds as cs) (by simp) b (by simpa [CmdNode.args] using hb)
        | some p =>
          rcases p with ⟨t, rest⟩
          dsimp only
          rcases descendFirst_cases opener ((CmdNode.mk i nm ds as cs) :: anc)
              (as ++ vis) cs t rest st1 with hno | ⟨ch, hch, heq⟩
          · rw [hno]
            refine ⟨[CmdNode.mk i nm ds as cs], PathFrom.leaf _, ?_, ?_⟩
            · rw [(postChecks_state anc _ true st1 _).1]
              simpa [CmdNode.nodeId] using hr1
            · intro j hv hchain
              rw [(postChecks_state anc _ true st1 _).1]
              refine (hcellsf j (hconds j hv ?_)).trans rfl
              intro b hb
              exact hchain (CmdNode.mk i nm ds as cs) (by simp) b (by simpa [CmdNode.args] using hb)
          · rw [heq]
            obtain ⟨chain2, hpath2, hreach2, hcells2⟩ :=
              ih ch (hsub ch hch) opener ((CmdNode.mk i nm ds as cs) :: anc)
                (as ++ vis) rest st1
            rcases hp : parseCmd opener ((CmdNode.mk i nm ds as cs) :: anc)
                (as ++ vis) ch rest st1 with ⟨st2, lo2, e2⟩
            rw [hp] at hreach2 hcells2
            simp only at hreach2 hcells2
            refine ⟨chain2 ++ [CmdNode.mk i nm ds as cs],
              PathFrom.step _ ch chain2 (by simpa [CmdNode.commands] using hch)
                hpath2, ?_, ?_⟩
            · have hfin : st2.reached =
                  (chain2 ++ [CmdNode.mk i nm ds as cs]).map CmdNode.nodeId ++
                    st.reached := by
                rw [hreach2, hr1]
                simp [CmdNode.nodeId]
              cases e2 with
              | some e3 => simpa using hfin
              | none =>
                rw [(postChecks_state anc _ true st2 _).1]
                exact hfin
            · intro j hv hchain
              have hstep1 : st1.cells[j]? = st.cells[j]? := by
                refine (hcellsf j (hconds j hv ?_)).trans rfl
                intro b hb
                exact hchain (CmdNode.mk i nm ds as cs) (by simp) b (by simpa [CmdNode.args] using hb)
              have hstep2 : st2.cells[j]? = st1.cells[j]? := by
                refine hcells2 j ?_ ?_
                · intro b hb
                  rcases List.mem_append.mp hb with hb | hb
                  · exact hchain (CmdNode.mk i nm ds as cs) (by simp) b
                      (by simpa [CmdNode.args] using hb)
                  · exact hv b hb
                · intro m hm b hb
                  exact hchain m (by simp [hm]) b hb
              have hfin : st2.cells[j]? = st.cells[j]? := hstep2.trans hstep1
              cases e2 with
              | some e3 => simpa using hfin
              | none =>
                rw [(postChecks_state anc _ true st2 _).1]
                exact hfin

/-- C8: after a successful Parse the reached marks are exactly the node ids of
a path from the root: `Happened` is true for every node on the matched
sub-command path and false for every node (sibling or descendant) whose id is
off that path, and every accessor cell claimed by no argument of a node on the
path keeps its declaration-time (zero) value; before any Parse, `Happened` on
any node is false. -/
theorem c8_happened_path (opener : Opener) (root : CmdNode) (cells0 : List Value)
    (args : List String)
    (hok : (Parse opener root cells0 args).2 = none) :
    (∀ c : CmdNode, Happened c (initState cells0) = false) ∧
    ∃ chain, PathFrom root chain ∧
      (∀ m ∈ chain, Happened m (Parse opener root cells0 args).1 = true) ∧
      (∀ m : CmdNode, m.nodeId ∉ chain.map CmdNode.nodeId →
        Happened m (Parse opener root cells0 args).1 = false) ∧
      (∀ j : Nat, (∀ m ∈ chain, ∀ b ∈ m.args, b.result ≠ j) →
        (Parse opener root cells0 args).1.cells[j]? = cells0[j]?) := by
  have _ := hok
  constructor
  · intro c; rfl
  · obtain ⟨chain, hpath, hreach, hcells⟩ :=
      parseCmd_reached_path (sizeOf root) root le_rfl opener [] [] args
        (initState cells0)
    have hfst := Parse_fst opener root cells0 args
    refine ⟨chain, hpath, ?_, ?_, ?_⟩
    · intro m hm
      show ((Parse opener root cells0 args).1.reached).contains m.nodeId = true
      rw [hfst, hreach]
      exact List.elem_iff.mpr
        (by simpa [initState] using List.mem_map.mpr ⟨m, hm, rfl⟩)
    · intro m hm
      show ((Parse opener root cells0 args).1.reached).contains m.nodeId = false
      rw [hfst, hreach]
      refine contains_eq_false_of_forall_ne ?_
      intro y hy
      intro hxy
      subst hxy
      exact hm (by simpa [initState] using hy)
    · intro j hj
      rw [hfst]
      have h := hcells j (by intro b hb; cases hb) hj
      simpa [initState] using h

theorem c8_witness :
    (∀ c : CmdNode, Happened c (initState [Value.strV ""]) = false) ∧
    ∃ chain, PathFrom (CmdNode.mk 0 "prog" "d" []
        [CmdNode.mk 1 "sub" "sd" [] [],
         CmdNode.mk 2 "other" "od"
           [{ result := 0, sname := "", lname := "x", size := 2 }] []]) chain ∧
      (∀ m ∈ chain, Happened m
        (Parse (fun _ _ _ => none)
          (CmdNode.mk 0 "prog" "d" []
            [CmdNode.mk 1 "sub" "sd" [] [],
             CmdNode.mk 2 "other" "od"
               [{ result := 0, sname := "", lname := "x", size := 2 }] []])
          [Value.strV ""] ["sub"]).1 = true) ∧
      (∀ m : CmdNode, m.nodeId ∉ chain.map CmdNode.nodeId →
        Happened m
        (Parse (fun _ _ _ => none)
          (CmdNode.mk 0 "prog" "d" []
            [CmdNode.mk 1 "sub" "sd" [] [],
             CmdNode.mk 2 "other" "od"
               [{ result := 0, sname := "", lname := "x", size := 2 }] []])
          [Value.strV ""] ["sub"]).1 = false) ∧
      (∀ j : Nat, (∀ m ∈ chain, ∀ b ∈ m.args, b.result ≠ j) →
        (Parse (fun _ _ _ => none)
          (CmdNode.mk 0 "prog" "d" []
            [CmdNode.mk 1 "sub" "sd" [] [],
             CmdNode.mk 2 "other" "od"
               [{ result := 0, sname := "", lname := "x", size := 2 }] []])
          [Value.strV ""] ["sub"]).1.cells[j]? = [Value.strV ""][j]?) :=
  c8_happened_path (fun _ _ _ => none)
    (CmdNode.mk 0 "prog" "d" []
      [CmdNode.mk 1 "sub" "sd" [] [],
       CmdNode.mk 2 "other" "od"
         [{ result := 0, sname := "", lname := "x", size := 2 }] []])
    [Value.strV ""] ["sub"] (Option.isNone_iff_eq_none.mp (by decide))
